import Mathlib

/-!
Verification of the evkvm event pipeline: a shallow embedding of the
input-event data model, the length-framed wire codec, the TLS fingerprint
verifier, the device reader/writer construction, and the server switch loop,
with theorems checking the natural-language specification against them.

Machine integers are modelled as Nat (u16/u32/u64, reduced mod 2^w where the
code truncates) and Int (i32), byte strings as List Nat with each element
below 256, and fallible operations as Option/Except.
-/

namespace Evkvm

/-! Constants from the Linux input headers (input/src/linux/glue bindgen). -/

def EV_SYN : Nat := 0
def EV_KEY : Nat := 1
def EV_ABS : Nat := 3
def EV_SW : Nat := 5
def EV_REP : Nat := 20
def EV_MAX : Nat := 31
def SYN_REPORT : Nat := 0
def BUS_VIRTUAL : Nat := 6

/-- Modelled from the spec: the source file input/src/event/key.rs (the `Key`
enum of named keyboard key codes) is not present under src/; the spec describes
`switch-keys` as a set of key-code names. We model a representative finite
enum of named keys with their Linux key codes, in a fixed declaration order
that determines the serde variant index. -/
inductive Key where
  | A
  | LeftCtrl
  | LeftAlt
  | RightAlt
  deriving DecidableEq

/-- Modelled from the spec: input/src/event/button.rs (the `Button` enum of
mouse/gamepad button codes) is not present under src/. -/
inductive Button where
  | Left
  | Right
  deriving DecidableEq

/-- Modelled from the spec: raw Linux key code of each named key. -/
def Key.to_raw : Key → Nat
  | .A => 30
  | .LeftCtrl => 29
  | .LeftAlt => 56
  | .RightAlt => 100

/-- Modelled from the spec: inverse raw-code lookup for `Key`. -/
def Key.from_raw (code : Nat) : Option Key :=
  if code = 30 then some .A
  else if code = 29 then some .LeftCtrl
  else if code = 56 then some .LeftAlt
  else if code = 100 then some .RightAlt
  else none

/-- Modelled from the spec: raw Linux button code of each named button. -/
def Button.to_raw : Button → Nat
  | .Left => 272
  | .Right => 273

/-- Modelled from the spec: inverse raw-code lookup for `Button`. -/
def Button.from_raw (code : Nat) : Option Button :=
  if code = 272 then some .Left
  else if code = 273 then some .Right
  else none

/-- KeyKind from input/src/event.rs: a key code or a button code. -/
inductive KeyKind where
  | Key (key : Key)
  | Button (button : Button)
  deriving DecidableEq

/-- KeyKind::from_raw from input/src/linux/event.rs: try `Key`, else `Button`. -/
def KeyKind.from_raw (code : Nat) : Option KeyKind :=
  match Key.from_raw code with
  | some key => some (KeyKind.Key key)
  | none =>
    match Button.from_raw code with
    | some button => some (KeyKind.Button button)
    | none => none

/-- KeyKind::to_raw from input/src/linux/event.rs. -/
def KeyKind.to_raw : KeyKind → Nat
  | .Key key => key.to_raw
  | .Button button => button.to_raw

/-- Direction from input/src/event.rs: Up = released, Down = pressed. -/
inductive Direction where
  | Up
  | Down
  deriving DecidableEq

/-- InputEvent from input/src/event.rs. -/
inductive InputEvent where
  | Key (direction : Direction) (kind : KeyKind)
  | Other (type_ : Nat) (code : Nat) (value : Int)
  deriving DecidableEq

/-- Raw struct input_event (glue bindgen from linux/input.h). -/
structure RawInputEvent where
  type_ : Nat
  code : Nat
  value : Int
  tv_sec : Int
  tv_usec : Int
  deriving DecidableEq

/-- InputEvent::to_raw from input/src/linux/event.rs (time fields zeroed). -/
def InputEvent.to_raw : InputEvent → RawInputEvent
  | .Other type_ code value =>
    { type_ := type_, code := code, value := value, tv_sec := 0, tv_usec := 0 }
  | .Key .Up kind =>
    { type_ := EV_KEY, code := kind.to_raw, value := 0, tv_sec := 0, tv_usec := 0 }
  | .Key .Down kind =>
    { type_ := EV_KEY, code := kind.to_raw, value := 1, tv_sec := 0, tv_usec := 0 }

/-- InputEvent::from_raw from input/src/linux/event.rs. An EV_KEY event with
value 0 or 1 whose code is not a known key or button makes the whole
conversion return none (the `?` operator inside the match arm); any other
(type, code, value) triple maps to `Other` verbatim. -/
def InputEvent.from_raw (raw : RawInputEvent) : Option InputEvent :=
  if raw.type_ = EV_KEY ∧ raw.value = 0 then
    match KeyKind.from_raw raw.code with
    | some kind => some (InputEvent.Key .Up kind)
    | none => none
  else if raw.type_ = EV_KEY ∧ raw.value = 1 then
    match KeyKind.from_raw raw.code with
    | some kind => some (InputEvent.Key .Down kind)
    | none => none
  else
    some (InputEvent.Other raw.type_ raw.code raw.value)

/-- AbsInfo from input/src/event.rs (six i32 fields). -/
structure AbsInfo where
  value : Int
  minimum : Int
  maximum : Int
  fuzz : Int
  flat : Int
  resolution : Int
  deriving DecidableEq

/-- Capability from input/src/event.rs, in declaration order (Other, ABS, REP)
which fixes the serde variant indices. -/
inductive Capability where
  | Other (type_ : Nat) (code : Nat)
  | ABS (code : Nat) (info : AbsInfo)
  | REP (code : Nat) (value : Int)
  deriving DecidableEq

/-- Device from input/src/event.rs. The name is a UTF-8 byte string, modelled
as a list of bytes. -/
structure Device where
  id : Nat
  name : List Nat
  vendor : Nat
  product : Nat
  bustype : Nat
  version : Nat
  capabilities : List Capability
  deriving DecidableEq

/-- Event from input/src/event.rs, in declaration order (Input, NewDevice,
RemoveDevice). -/
inductive Event where
  | Input (device_id : Nat) (input : InputEvent) (syn : Bool)
  | NewDevice (device : Device)
  | RemoveDevice (device_id : Nat)
  deriving DecidableEq

/-- Message from net/src/lib.rs: event data or a keep-alive. -/
inductive Message where
  | Event (event : Event)
  | KeepAlive
  deriving DecidableEq

/-! Wire codec, from net/src/lib.rs. Bincode 1.x default configuration:
fixed-width little-endian integers, enum variant tags as u32, lengths of
strings and vectors as u64, bools as a single validated 0/1 byte. -/

/-- Little-endian value of a byte list: bytes[0] + 256 * bytes[1] + ... -/
def leVal (bytes : List Nat) : Nat :=
  bytes.foldr (fun b acc => b + 256 * acc) 0

/-- Little-endian bytes of a u16 (values are taken mod 2^16 as in a cast). -/
def u16le (n : Nat) : List Nat :=
  [n % 256, n / 256 % 256]

/-- Little-endian bytes of a u32. -/
def u32le (n : Nat) : List Nat :=
  [n % 256, n / 256 % 256, n / 65536 % 256, n / 16777216 % 256]

/-- Little-endian bytes of a u64. -/
def u64le (n : Nat) : List Nat :=
  [n % 256, n / 256 % 256, n / 65536 % 256, n / 16777216 % 256,
   n / 4294967296 % 256, n / 1099511627776 % 256,
   n / 281474976710656 % 256, n / 72057594037927936 % 256]

/-- Little-endian two's-complement bytes of an i32. -/
def i32le (v : Int) : List Nat :=
  u32le (v % 4294967296).toNat

/-- bincode encoding of a bool: one byte, 0 or 1. -/
def boolByte (b : Bool) : List Nat :=
  [if b then 1 else 0]

/-- read_exact semantics on a byte list: take exactly n bytes or fail. -/
def readExact (n : Nat) (l : List Nat) : Option (List Nat × List Nat) :=
  if n ≤ l.length then some (l.take n, l.drop n) else none

/-- Read a fixed-width little-endian unsigned integer of w bytes. -/
def dUInt (w : Nat) (l : List Nat) : Option (Nat × List Nat) :=
  (readExact w l).map (fun p => (leVal p.1, p.2))

/-- Read an i32: 4 bytes little-endian, two's complement. -/
def dI32 (l : List Nat) : Option (Int × List Nat) :=
  (dUInt 4 l).map (fun p =>
    (if p.1 < 2147483648 then (p.1 : Int) else (p.1 : Int) - 4294967296, p.2))

/-- Read a bincode bool, rejecting any byte other than 0 or 1. -/
def dBool (l : List Nat) : Option (Bool × List Nat) :=
  match l with
  | 0 :: rest => some (false, rest)
  | 1 :: rest => some (true, rest)
  | _ => none

/-- serde variant index of a `Key`, by declaration order. -/
def Key.toIdx : Key → Nat
  | .A => 0
  | .LeftCtrl => 1
  | .LeftAlt => 2
  | .RightAlt => 3

/-- Inverse of `Key.toIdx`; an out-of-range tag is a decode error. -/
def Key.ofIdx : Nat → Option Key
  | 0 => some .A
  | 1 => some .LeftCtrl
  | 2 => some .LeftAlt
  | 3 => some .RightAlt
  | _ => none

/-- serde variant index of a `Button`, by declaration order. -/
def Button.toIdx : Button → Nat
  | .Left => 0
  | .Right => 1

/-- Inverse of `Button.toIdx`. -/
def Button.ofIdx : Nat → Option Button
  | 0 => some .Left
  | 1 => some .Right
  | _ => none

/-- bincode serialization of `Direction` (unit enum: u32 tag only). -/
def serDirection (d : Direction) : List Nat :=
  u32le (match d with | .Up => 0 | .Down => 1)

/-- bincode serialization of `KeyKind` (u32 variant tag, then the inner
enum as its own u32 tag). -/
def serKeyKind : KeyKind → List Nat
  | .Key key => u32le 0 ++ u32le key.toIdx
  | .Button button => u32le 1 ++ u32le button.toIdx

/-- bincode serialization of `InputEvent` (fields in declaration order). -/
def serInput : InputEvent → List Nat
  | .Key direction kind => u32le 0 ++ serDirection direction ++ serKeyKind kind
  | .Other type_ code value => u32le 1 ++ u16le type_ ++ u16le code ++ i32le value

/-- bincode serialization of `AbsInfo` (six i32 fields in order). -/
def serAbsInfo (info : AbsInfo) : List Nat :=
  i32le info.value ++ i32le info.minimum ++ i32le info.maximum ++
  i32le info.fuzz ++ i32le info.flat ++ i32le info.resolution

/-- bincode serialization of `Capability`. -/
def serCapability : Capability → List Nat
  | .Other type_ code => u32le 0 ++ u16le type_ ++ u16le code
  | .ABS code info => u32le 1 ++ u16le code ++ serAbsInfo info
  | .REP code value => u32le 2 ++ u16le code ++ i32le value

/-- bincode serialization of `Device` (fields in declaration order; the name
and the capability vector are length-prefixed with a u64). -/
def serDevice (d : Device) : List Nat :=
  u16le d.id ++
  (u64le d.name.length ++ d.name) ++
  u16le d.vendor ++ u16le d.product ++ u16le d.bustype ++ u16le d.version ++
  (u64le d.capabilities.length ++ (d.capabilities.map serCapability).flatten)

/-- bincode serialization of `Event`. -/
def serEvent : Event → List Nat
  | .Input device_id input syn =>
    u32le 0 ++ u16le device_id ++ serInput input ++ boolByte syn
  | .NewDevice device => u32le 1 ++ serDevice device
  | .RemoveDevice device_id => u32le 2 ++ u16le device_id

/-- bincode serialization of `Message`. -/
def serMessage : Message → List Nat
  | .Event event => u32le 0 ++ serEvent event
  | .KeepAlive => u32le 1

/-- Read a u32 enum variant tag. -/
def dTag (l : List Nat) : Option (Nat × List Nat) :=
  dUInt 4 l

/-- Decode a `Direction`. -/
def dDirection (l : List Nat) : Option (Direction × List Nat) :=
  (dTag l).bind (fun p =>
    match p.1 with
    | 0 => some (Direction.Up, p.2)
    | 1 => some (Direction.Down, p.2)
    | _ => none)

/-- Decode a `KeyKind`. -/
def dKeyKind (l : List Nat) : Option (KeyKind × List Nat) :=
  (dTag l).bind (fun p =>
    match p.1 with
    | 0 => (dTag p.2).bind (fun q =>
        (Key.ofIdx q.1).map (fun key => (KeyKind.Key key, q.2)))
    | 1 => (dTag p.2).bind (fun q =>
        (Button.ofIdx q.1).map (fun button => (KeyKind.Button button, q.2)))
    | _ => none)

/-- Decode an `InputEvent`. -/
def dInput (l : List Nat) : Option (InputEvent × List Nat) :=
  (dTag l).bind (fun p =>
    match p.1 with
    | 0 =>
      (dDirection p.2).bind (fun q =>
        (dKeyKind q.2).map (fun r => (InputEvent.Key q.1 r.1, r.2)))
    | 1 =>
      (dUInt 2 p.2).bind (fun q =>
        (dUInt 2 q.2).bind (fun r =>
          (dI32 r.2).map (fun s => (InputEvent.Other q.1 r.1 s.1, s.2))))
    | _ => none)

/-- Decode an `AbsInfo`. -/
def dAbsInfo (l : List Nat) : Option (AbsInfo × List Nat) :=
  (dI32 l).bind (fun a =>
    (dI32 a.2).bind (fun b =>
      (dI32 b.2).bind (fun c =>
        (dI32 c.2).bind (fun d =>
          (dI32 d.2).bind (fun e =>
            (dI32 e.2).map (fun f =>
              ({ value := a.1, minimum := b.1, maximum := c.1,
                 fuzz := d.1, flat := e.1, resolution := f.1 }, f.2)))))))

/-- Decode a `Capability`. -/
def dCapability (l : List Nat) : Option (Capability × List Nat) :=
  (dTag l).bind (fun p =>
    match p.1 with
    | 0 =>
      (dUInt 2 p.2).bind (fun q =>
        (dUInt 2 q.2).map (fun r => (Capability.Other q.1 r.1, r.2)))
    | 1 =>
      (dUInt 2 p.2).bind (fun q =>
        (dAbsInfo q.2).map (fun r => (Capability.ABS q.1 r.1, r.2)))
    | 2 =>
      (dUInt 2 p.2).bind (fun q =>
        (dI32 q.2).map (fun r => (Capability.REP q.1 r.1, r.2)))
    | _ => none)

/-- Decode n consecutive values with a given element decoder. -/
def dList (dec : List Nat → Option (α × List Nat)) :
    Nat → List Nat → Option (List α × List Nat)
  | 0, l => some ([], l)
  | n + 1, l =>
    (dec l).bind (fun p =>
      (dList dec n p.2).map (fun q => (p.1 :: q.1, q.2)))

/-- Decode a `Device`. -/
def dDevice (l : List Nat) : Option (Device × List Nat) :=
  (dUInt 2 l).bind (fun idp =>
    (dUInt 8 idp.2).bind (fun nlen =>
      (readExact nlen.1 nlen.2).bind (fun name =>
        (dUInt 2 name.2).bind (fun vend =>
          (dUInt 2 vend.2).bind (fun prod =>
            (dUInt 2 prod.2).bind (fun bus =>
              (dUInt 2 bus.2).bind (fun vers =>
                (dUInt 8 vers.2).bind (fun clen =>
                  (dList dCapability clen.1 clen.2).map (fun caps =>
                    ({ id := idp.1, name := name.1, vendor := vend.1,
                       product := prod.1, bustype := bus.1, version := vers.1,
                       capabilities := caps.1 }, caps.2))))))))))

/-- Decode an `Event`. -/
def dEvent (l : List Nat) : Option (Event × List Nat) :=
  (dTag l).bind (fun p =>
    match p.1 with
    | 0 =>
      (dUInt 2 p.2).bind (fun q =>
        (dInput q.2).bind (fun r =>
          (dBool r.2).map (fun s => (Event.Input q.1 r.1 s.1, s.2))))
    | 1 => (dDevice p.2).map (fun q => (Event.NewDevice q.1, q.2))
    | 2 => (dUInt 2 p.2).map (fun q => (Event.RemoveDevice q.1, q.2))
    | _ => none)

/-- Decode a `Message`. -/
def dMessage (l : List Nat) : Option (Message × List Nat) :=
  (dTag l).bind (fun p =>
    match p.1 with
    | 0 => (dEvent p.2).map (fun q => (Message.Event q.1, q.2))
    | 1 => some (Message.KeepAlive, p.2)
    | _ => none)

/-- Error classes of the net read path: truncated input (read_exact hits EOF
mid-frame) or a payload bincode refuses (ErrorKind::InvalidData). -/
inductive ReadError where
  | truncated
  | invalidData
  deriving DecidableEq

/-- read_message from net/src/lib.rs: read a 4-byte little-endian length,
read that many payload bytes, then bincode-deserialize the payload. -/
def read_message (bytes : List Nat) : Except ReadError Message :=
  match readExact 4 bytes with
  | none => .error .truncated
  | some (lenBytes, rest) =>
    match readExact (leVal lenBytes) rest with
    | none => .error .truncated
    | some (data, _) =>
      match dMessage data with
      | some (m, _) => .ok m
      | none => .error .invalidData

/-- write_message from net/src/lib.rs: bincode-serialize, then emit a 4-byte
little-endian length prefix followed by the payload. The length must fit a
u32 (`try_into` fails otherwise, ErrorKind::InvalidInput). -/
def write_message (m : Message) : Except ReadError (List Nat) :=
  let data := serMessage m
  if data.length < 4294967296 then
    .ok (u32le data.length ++ data)
  else
    .error .invalidData

/-- Well-formedness of the Lean model of a message: every numeric field is in
the range of its Rust machine type (u16 fields below 2^16, i32 fields in
signed 32-bit range, name bytes below 2^8, vector lengths expressible as
u64). These bounds hold by construction of the Rust types. -/
def InputEvent.wf : InputEvent → Bool
  | .Key _ _ => true
  | .Other type_ code value =>
    type_ < 65536 && code < 65536 && -2147483648 ≤ value && value < 2147483648

/-- Well-formedness of an i32 model value. -/
def i32wf (v : Int) : Bool :=
  -2147483648 ≤ v && v < 2147483648

/-- Well-formedness of an `AbsInfo` model value. -/
def AbsInfo.wf (info : AbsInfo) : Bool :=
  i32wf info.value && i32wf info.minimum && i32wf info.maximum &&
  i32wf info.fuzz && i32wf info.flat && i32wf info.resolution

/-- Well-formedness of a `Capability` model value. -/
def Capability.wf : Capability → Bool
  | .Other type_ code => type_ < 65536 && code < 65536
  | .ABS code info => code < 65536 && info.wf
  | .REP code value => code < 65536 && i32wf value

/-- Well-formedness of a `Device` model value. -/
def Device.wf (d : Device) : Bool :=
  d.id < 65536 && d.vendor < 65536 && d.product < 65536 &&
  d.bustype < 65536 && d.version < 65536 &&
  d.name.all (· < 256) && d.name.length < 18446744073709551616 &&
  d.capabilities.all Capability.wf &&
  d.capabilities.length < 18446744073709551616

/-- Well-formedness of an `Event` model value. -/
def Event.wf : Event → Bool
  | .Input device_id input _ => device_id < 65536 && input.wf
  | .NewDevice device => device.wf
  | .RemoveDevice device_id => device_id < 65536

/-- Well-formedness of a `Message` model value, including the framing bound:
the serialized payload fits a u32 length prefix. -/
def Message.wf : Message → Bool
  | .Event event => event.wf && (serMessage (.Event event)).length < 4294967296
  | .KeepAlive => true

/-! TLS fingerprint verification, from evkvm/src/client.rs and common.rs.
get_cert_fingerprint (SHA-256 of the DER bytes, lowercase hex) is an external
cryptographic primitive; the verifier is modelled as a function of the
fingerprint string it computes for the presented end-entity certificate. -/

/-- Sender from evkvm/src/config.rs. -/
structure Sender where
  nick : Option String
  address : String
  port : Option Nat
  fingerprint : Option String
  deriving DecidableEq

/-- rustls error classes relevant to the verifier. -/
inductive TlsError where
  | InvalidCertificateSignature
  deriving DecidableEq

/-- ServerVerifier::verify_server_cert from evkvm/src/client.rs lines 26-61:
compute fingerprint_matches (false when no fingerprint is configured), then
return Err(InvalidCertificateSignature) when it matches and Ok otherwise.
`fingerprint` is the value get_cert_fingerprint returns for the presented
end-entity certificate. -/
def verify_server_cert (sender : Sender) (fingerprint : String) :
    Except TlsError Unit :=
  let fingerprint_matches : Bool :=
    match sender.fingerprint with
    | some sender_fingerprint => fingerprint = sender_fingerprint
    | none => false
  if fingerprint_matches then
    .error .InvalidCertificateSignature
  else
    .ok ()

/-- The spec's verification predicate, from its words: verification succeeds
iff a fingerprint is configured for the sender and it equals the presented
certificate's fingerprint. Stated for comparison with `verify_server_cert`. -/
def specVerifyAccepts (expected : Option String) (actual : String) : Bool :=
  expected.isSome && expected == some actual

/-! Device writer, from input/src/linux/event_writer.rs. -/

/-- The observable identity of the virtual evdev device configured by
setup_evdev (lines 86-93): identity fields copied from the descriptor except
bustype, which is set to BUS_VIRTUAL, plus the capabilities enabled in
descriptor order. -/
structure VirtualDevice where
  vendor : Nat
  product : Nat
  version : Nat
  bustype : Nat
  name : List Nat
  capabilities : List Capability
  deriving DecidableEq

/-- setup_evdev from input/src/linux/event_writer.rs: set vendor, product and
version from the device, force bustype to BUS_VIRTUAL, set the name, enable
every capability in the order received. -/
def setup_evdev (device : Device) : VirtualDevice :=
  { vendor := device.vendor,
    product := device.product,
    version := device.version,
    bustype := BUS_VIRTUAL,
    name := device.name,
    capabilities := device.capabilities }

/-! Device reader, from input/src/linux/event_reader.rs. -/

/-- OpenError from input/src/linux/event_reader.rs. The Io payload is the
raw OS error number. -/
inductive OpenError where
  | AlreadyOpened
  | Io (errno : Nat)
  deriving DecidableEq

/-- The state libevdev reports for a successfully opened device node:
identity integers (C ints, truncated with `as u16` where stored), the name,
which event types and codes the device supports, the per-type maximum code
(libevdev_event_type_get_max), per-code absolute-axis info and current event
values, and the return value a libevdev_grab call would produce. -/
structure RawEvdev where
  product : Nat
  vendor : Nat
  bustype : Nat
  version : Nat
  name : List Nat
  hasType : Nat → Bool
  codeMax : Nat → Nat
  hasCode : Nat → Nat → Bool
  absInfo : Nat → AbsInfo
  eventValue : Nat → Nat → Int
  grabRet : Int

/-- The capability scan of EventReader::new (lines 75-122): for each type
below EV_MAX except EV_SW with libevdev_has_event_type, for each code below
that type's maximum with libevdev_has_event_code, record an ABS capability
with the axis info for EV_ABS, a REP capability with the current value for
EV_REP, and an Other capability for all remaining types. -/
def capScan (raw : RawEvdev) : List Capability :=
  ((List.range EV_MAX).filter (fun t => decide (t ≠ EV_SW) && raw.hasType t)).flatMap
    (fun t =>
      ((List.range (raw.codeMax t)).filter (fun c => raw.hasCode t c)).map
        (fun c =>
          if t = EV_ABS then Capability.ABS (c % 65536) (raw.absInfo c)
          else if t = EV_REP then Capability.REP (c % 65536) (raw.eventValue t c)
          else Capability.Other (t % 65536) (c % 65536)))

/-- Decimal digit-string parser: the core of u16::from_str. Fails on an
empty string or any non-digit byte. (u16::from_str also accepts a leading
plus sign; device node names never carry one.) -/
def parseDigits : Nat → List Nat → Option Nat
  | acc, [] => some acc
  | acc, b :: rest =>
    if 48 ≤ b ∧ b ≤ 57 then parseDigits (acc * 10 + (b - 48)) rest else none

/-- The (type, code) pairs the capability scan walks, in walk order: types
ascending below EV_MAX skipping EV_SW, codes ascending below the type's
maximum. -/
def capPairs (raw : RawEvdev) : List (Nat × Nat) :=
  ((List.range EV_MAX).filter (fun t => decide (t ≠ EV_SW) && raw.hasType t)).flatMap
    (fun t =>
      ((List.range (raw.codeMax t)).filter (fun c => raw.hasCode t c)).map
        (fun c => (t, c)))

/-- Device id derivation in EventReader::new (lines 68-73): strip the
"event" prefix (5 bytes) of the node file name and parse the rest as a u16,
defaulting to 0 on any parse failure (empty, non-digit, or overflow). -/
def deriveId (fileName : List Nat) : Nat :=
  let digits := fileName.drop 5
  if digits = [] then 0
  else
    match parseDigits 0 digits with
    | some n => if n < 65536 then n else 0
    | none => 0

/-- EventReader::new from input/src/linux/event_reader.rs, lines 38-147,
given the libevdev state of a device node that opened successfully: refuse
with AlreadyOpened any device whose bustype is BUS_VIRTUAL, otherwise build
the descriptor from the identity fields (truncated to u16) and the
capability scan. The libevdev_grab call (lines 134-140) is commented out in
the source, so `grabRet` is never consulted. -/
def eventReaderNew (raw : RawEvdev) (fileName : List Nat) :
    Except OpenError Device :=
  if raw.bustype = BUS_VIRTUAL then
    .error .AlreadyOpened
  else
    .ok
      { id := deriveId fileName,
        name := raw.name,
        vendor := raw.vendor % 65536,
        product := raw.product % 65536,
        bustype := raw.bustype % 65536,
        version := raw.version % 65536,
        capabilities := capScan raw }

/-- The (type, code) pair a capability record stands for. -/
def Capability.typeCode : Capability → Nat × Nat
  | .Other type_ code => (type_, code)
  | .ABS code _ => (EV_ABS, code)
  | .REP code _ => (EV_REP, code)

/-- Strict lexicographic order on (type, code) pairs. -/
def tcLt (a b : Nat × Nat) : Prop :=
  a.1 < b.1 ∨ (a.1 = b.1 ∧ a.2 < b.2)

/-! Server switch loop, from evkvm/src/server.rs run_server (lines 160-257).
A peer's unbounded channel is modelled as a sink that is open or closed and
records the events sent to it in order; the local writer manager is modelled
as the list of events written to it. The combo key-state HashMap is modelled
as an association list; the source iterates it in hash order, which is
unspecified but fixed within a session — the model iterates in list order. -/

/-- A per-peer event channel: open or closed, with the log of events it
accepted. -/
structure Sink where
  isOpen : Bool
  sent : List Event
  deriving DecidableEq

/-- State of the run_server select loop: the client list, the current
target (0 = local), the combo key states, and the log of events written to
the local writer manager. -/
structure LoopState where
  clients : List Sink
  current : Nat
  keyStates : List (Key × Bool)
  writerLog : List Event
  deriving DecidableEq

/-- Send an event on the i-th client channel: append to its log when the
channel is open and report success, otherwise leave the list unchanged and
report failure. -/
def sendTo (clients : List Sink) (i : Nat) (e : Event) : List Sink × Bool :=
  match clients[i]? with
  | some sink =>
    if sink.isOpen then
      (clients.set i { sink with sent := sink.sent ++ [e] }, true)
    else
      (clients, false)
  | none => (clients, false)

/-- HashMap::get_mut presence check on the key-state map. -/
def hasKey (ks : List (Key × Bool)) (k : Key) : Bool :=
  ks.any (fun p => p.1 = k)

/-- Update the state recorded for a combo key. -/
def setKeyState (ks : List (Key × Bool)) (k : Key) (b : Bool) :
    List (Key × Bool) :=
  ks.map (fun p => if p.1 = k then (p.1, b) else p)

/-- The rotation trigger: the count of pressed combo keys equals the size of
the map, i.e. every combo key is down. -/
def allDown (ks : List (Key × Bool)) : Bool :=
  ks.all (fun p => p.2)

/-- Deliver one synthetic transition event to a target: to the local writer
manager when the target is 0, otherwise to clients[target-1] with any send
failure ignored (server.rs lines 189-228). -/
def emitToTarget (st : LoopState) (target : Nat) (e : Event) : LoopState :=
  if target = 0 then
    { st with writerLog := st.writerLog ++ [e] }
  else
    { st with clients := (sendTo st.clients (target - 1) e).1 }

/-- The combo transition sequence (server.rs lines 182-229): for each combo
key in iteration order, a Key Up with syn=true to the old target followed by
a Key Down with syn=true to the new target. -/
def emitTransition (st : LoopState) (device_id : Nat) (old new_ : Nat) :
    LoopState :=
  st.keyStates.foldl
    (fun acc p =>
      let acc := emitToTarget acc old
        (Event.Input device_id (InputEvent.Key .Up (KeyKind.Key p.1)) true)
      emitToTarget acc new_
        (Event.Input device_id (InputEvent.Key .Down (KeyKind.Key p.1)) true))
    st

/-- The rotation on a completed combo (server.rs lines 180-232): compute the
new target, emit the transition sequence, then update current. -/
def rotate (st : LoopState) (device_id : Nat) : LoopState :=
  { emitTransition st device_id st.current
      ((st.current + 1) % (st.clients.length + 1)) with
    current := (st.current + 1) % (st.clients.length + 1) }

/-- The key-state update of the combo phase (server.rs lines 177-234): for a
combo member, record its direction; when every combo key is then down,
rotate. -/
def comboKeyStep (st : LoopState) (device_id : Nat) (direction : Direction)
    (key : Key) : LoopState :=
  if hasKey st.keyStates key then
    if allDown (setKeyState st.keyStates key (direction = Direction.Down)) then
      rotate
        { st with keyStates :=
            setKeyState st.keyStates key (direction = Direction.Down) }
        device_id
    else
      { st with keyStates :=
          setKeyState st.keyStates key (direction = Direction.Down) }
  else st

/-- The combo phase of one loop iteration (server.rs lines 172-235): only a
Key event carrying a keyboard key (not a button) can touch the combo state;
all other events leave the state alone. -/
def comboPhase (st : LoopState) (e : Event) : LoopState :=
  match e with
  | .Input device_id (.Key direction (.Key key)) _ =>
    comboKeyStep st device_id direction key
  | _ => st

/-- The routing phase of one loop iteration (server.rs lines 237-247): with a
remote current target, try to send the event there; on success continue, on
failure remove that sender, fall back to local, and (like the local case)
write the event to the local writer manager. -/
def routePhase (st : LoopState) (e : Event) : LoopState :=
  if st.current ≠ 0 then
    if (sendTo st.clients (st.current - 1) e).2 then
      { st with clients := (sendTo st.clients (st.current - 1) e).1 }
    else
      { st with
        clients := st.clients.eraseIdx (st.current - 1),
        current := 0,
        writerLog := st.writerLog ++ [e] }
  else
    { st with writerLog := st.writerLog ++ [e] }

/-- One full iteration of the select loop for an event read from the reader
manager. -/
def serverStep (st : LoopState) (e : Event) : LoopState :=
  routePhase (comboPhase st e) e

/-- The accept branch of the select loop (server.rs lines 249-255): the new
sender first receives a NewDevice for every known device, then is appended
to the client list. -/
def acceptStep (st : LoopState) (devices : List Device) : LoopState :=
  { st with
    clients := st.clients ++ [{ isOpen := true,
                                sent := devices.map Event.NewDevice }] }

/-- A peer task terminating closes the receiving end of its channel; this is
an environment action that flips the sink closed without touching the list
structure. -/
def closeStep (st : LoopState) (i : Nat) : LoopState :=
  { st with
    clients :=
      match st.clients[i]? with
      | some sink => st.clients.set i { sink with isOpen := false }
      | none => st.clients }

/-- The initial loop state (server.rs lines 160-166): no clients, current 0,
every switch key mapped to false. -/
def initState (switchKeys : List Key) : LoopState :=
  { clients := [],
    current := 0,
    keyStates := switchKeys.map (fun k => (k, false)),
    writerLog := [] }

/-- States the select loop can reach: the initial state, closed under
processing a reader event, accepting a new client, and the environment
closing a peer channel. -/
inductive Reachable (switchKeys : List Key) : LoopState → Prop where
  | init : Reachable switchKeys (initState switchKeys)
  | step (st : LoopState) (e : Event) :
      Reachable switchKeys st → Reachable switchKeys (serverStep st e)
  | accept (st : LoopState) (devices : List Device) :
      Reachable switchKeys st → Reachable switchKeys (acceptStep st devices)
  | close (st : LoopState) (i : Nat) :
      Reachable switchKeys st → Reachable switchKeys (closeStep st i)

/-! Scenario builders and concrete fixtures used to evaluate the model. -/

/-- A raw key press as the capture layer emits it (syn=false). -/
def pressE (device_id : Nat) (k : Key) : Event :=
  .Input device_id (.Key .Down (.Key k)) false

/-- A raw key release as the capture layer emits it (syn=false). -/
def releaseE (device_id : Nat) (k : Key) : Event :=
  .Input device_id (.Key .Up (.Key k)) false

/-- One simultaneous hold of the full combo followed by a release of every
combo key: presses in combo order, then releases in combo order. -/
def holdReleaseCycle (ks : List Key) (device_id : Nat) : List Event :=
  ks.map (pressE device_id) ++ ks.map (releaseE device_id)

/-- Scenario S2 start state: one connected peer, current = 0, combo
{LeftAlt, RightAlt} with both keys up. -/
def s2Start : LoopState :=
  { clients := [{ isOpen := true, sent := [] }],
    current := 0,
    keyStates := [(.LeftAlt, false), (.RightAlt, false)],
    writerLog := [] }

/-- Scenario S2 after the two combo presses on device 7. -/
def s2AfterCombo : LoopState :=
  serverStep (serverStep s2Start (pressE 7 .LeftAlt)) (pressE 7 .RightAlt)

/-- Scenario S2 after the subsequent Key Down A. -/
def s2Final : LoopState :=
  serverStep s2AfterCombo (pressE 7 .A)

/-- A libevdev state whose bustype is the virtual-bus marker. -/
def rawVirtual : RawEvdev :=
  { product := 1, vendor := 2, bustype := BUS_VIRTUAL, version := 3,
    name := [97], hasType := fun _ => false, codeMax := fun _ => 0,
    hasCode := fun _ _ => false,
    absInfo := fun _ => { value := 0, minimum := 0, maximum := 0,
                          fuzz := 0, flat := 0, resolution := 0 },
    eventValue := fun _ _ => 0, grabRet := 0 }

/-- A non-virtual libevdev state on which a grab call would fail (EBUSY). -/
def rawGrabFail : RawEvdev :=
  { product := 1, vendor := 2, bustype := 3, version := 4,
    name := [107], hasType := fun _ => false, codeMax := fun _ => 0,
    hasCode := fun _ _ => false,
    absInfo := fun _ => { value := 0, minimum := 0, maximum := 0,
                          fuzz := 0, flat := 0, resolution := 0 },
    eventValue := fun _ _ => 0, grabRet := -16 }

/-- A non-virtual libevdev state supporting exactly the switch pair
(EV_SW, 0). -/
def rawSw : RawEvdev :=
  { product := 1, vendor := 2, bustype := 3, version := 4,
    name := [115], hasType := fun t => t == EV_SW,
    codeMax := fun _ => 1,
    hasCode := fun t c => t == EV_SW && c == 0,
    absInfo := fun _ => { value := 0, minimum := 0, maximum := 0,
                          fuzz := 0, flat := 0, resolution := 0 },
    eventValue := fun _ _ => 0, grabRet := 0 }

/-- A non-virtual libevdev state supporting (EV_KEY, 1) and (EV_ABS, 0). -/
def rawKeyAbs : RawEvdev :=
  { product := 1, vendor := 2, bustype := 3, version := 4,
    name := [109], hasType := fun t => t == EV_KEY || t == EV_ABS,
    codeMax := fun _ => 2,
    hasCode := fun t c => (t == EV_KEY && c == 1) || (t == EV_ABS && c == 0),
    absInfo := fun _ => { value := 1, minimum := 2, maximum := 3,
                          fuzz := 4, flat := 5, resolution := 6 },
    eventValue := fun _ _ => 0, grabRet := 0 }

/-- Loop state with one already-closed peer channel while current = 1. -/
def s3State : LoopState :=
  { clients := [{ isOpen := false, sent := [] }],
    current := 1,
    keyStates := [(.LeftAlt, false), (.RightAlt, false)],
    writerLog := [] }

/-! Theorems. Helper lemmas about the server loop come first. -/

theorem sendTo_fst_length (cs : List Sink) (i : Nat) (e : Event) :
    ((sendTo cs i e).1).length = cs.length := by
  cases h : cs[i]? with
  | none => simp [sendTo, h]
  | some sink =>
    by_cases ho : sink.isOpen = true <;> simp [sendTo, h, ho]

theorem sendTo_fst_open (cs : List Sink) (i : Nat) (e : Event)
    (h : ∀ s ∈ cs, s.isOpen = true) :
    ∀ s ∈ (sendTo cs i e).1, s.isOpen = true := by
  cases hg : cs[i]? with
  | none => simpa only [sendTo, hg] using h
  | some sink =>
    by_cases ho : sink.isOpen = true
    · simp only [sendTo, hg, ho, if_true]
      intro s hs
      rcases List.mem_or_eq_of_mem_set hs with h1 | h2
      · exact h s h1
      · rw [h2]
    · simp only [sendTo, hg, ho, if_false]
      exact h

theorem sendTo_success (cs : List Sink) (i : Nat) (e : Event)
    (hi : i < cs.length) (h : ∀ s ∈ cs, s.isOpen = true) :
    (sendTo cs i e).2 = true := by
  have ho : cs[i].isOpen = true := h _ (List.getElem_mem hi)
  simp [sendTo, List.getElem?_eq_getElem hi, ho]

theorem routePhase_preserve (st : LoopState) (e : Event)
    (hopen : ∀ s ∈ st.clients, s.isOpen = true)
    (hcur : st.current ≤ st.clients.length) :
    (routePhase st e).current = st.current ∧
    (routePhase st e).keyStates = st.keyStates ∧
    (routePhase st e).clients.length = st.clients.length ∧
    (∀ s ∈ (routePhase st e).clients, s.isOpen = true) := by
  unfold routePhase
  by_cases hc : st.current = 0
  · rw [if_neg (not_not_intro hc)]
    exact ⟨rfl, rfl, rfl, hopen⟩
  · have hi : st.current - 1 < st.clients.length := by omega
    have hs := sendTo_success st.clients (st.current - 1) e hi hopen
    rw [if_pos hc, if_pos hs]
    exact ⟨rfl, rfl, sendTo_fst_length _ _ _, sendTo_fst_open _ _ _ hopen⟩

theorem routePhase_bound (st : LoopState) (e : Event)
    (h : st.current ≤ st.clients.length) :
    (routePhase st e).current ≤ (routePhase st e).clients.length := by
  unfold routePhase
  by_cases hc : st.current = 0
  · rw [if_neg (not_not_intro hc)]
    simpa using h
  · rw [if_pos hc]
    cases hk : (sendTo st.clients (st.current - 1) e).2
    · rw [if_neg Bool.false_ne_true]
      exact Nat.zero_le _
    · rw [if_pos rfl]
      simpa [sendTo_fst_length] using h

theorem foldl_preserve {α : Type} (g : LoopState → α → LoopState)
    (hcur : ∀ s a, (g s a).current = s.current)
    (hks : ∀ s a, (g s a).keyStates = s.keyStates)
    (hlen : ∀ s a, (g s a).clients.length = s.clients.length)
    (hopen : ∀ s a, (∀ x ∈ s.clients, x.isOpen = true) →
      ∀ x ∈ (g s a).clients, x.isOpen = true)
    (l : List α) (st : LoopState) :
    (l.foldl g st).current = st.current ∧
    (l.foldl g st).keyStates = st.keyStates ∧
    (l.foldl g st).clients.length = st.clients.length ∧
    ((∀ x ∈ st.clients, x.isOpen = true) →
      ∀ x ∈ (l.foldl g st).clients, x.isOpen = true) := by
  induction l generalizing st with
  | nil => exact ⟨rfl, rfl, rfl, fun h => h⟩
  | cons a l ih =>
    simp only [List.foldl_cons]
    obtain ⟨h1, h2, h3, h4⟩ := ih (g st a)
    exact ⟨h1.trans (hcur st a), h2.trans (hks st a), h3.trans (hlen st a),
           fun ho => h4 (hopen st a ho)⟩

theorem emitToTarget_preserve (st : LoopState) (t : Nat) (e : Event) :
    (emitToTarget st t e).current = st.current ∧
    (emitToTarget st t e).keyStates = st.keyStates ∧
    (emitToTarget st t e).clients.length = st.clients.length ∧
    ((∀ x ∈ st.clients, x.isOpen = true) →
      ∀ x ∈ (emitToTarget st t e).clients, x.isOpen = true) := by
  unfold emitToTarget
  by_cases h : t = 0
  · rw [if_pos h]
    exact ⟨rfl, rfl, rfl, fun ho => ho⟩
  · rw [if_neg h]
    exact ⟨rfl, rfl, sendTo_fst_length _ _ _, fun ho => sendTo_fst_open _ _ _ ho⟩

theorem emitTransition_preserve (st : LoopState) (device_id old new_ : Nat) :
    (emitTransition st device_id old new_).current = st.current ∧
    (emitTransition st device_id old new_).keyStates = st.keyStates ∧
    (emitTransition st device_id old new_).clients.length =
      st.clients.length ∧
    ((∀ x ∈ st.clients, x.isOpen = true) →
      ∀ x ∈ (emitTransition st device_id old new_).clients,
        x.isOpen = true) := by
  unfold emitTransition
  refine foldl_preserve _ ?_ ?_ ?_ ?_ _ _
  · intro s a
    obtain ⟨h1, _, _, _⟩ := emitToTarget_preserve (emitToTarget s old _) new_ _
    obtain ⟨h2, _, _, _⟩ := emitToTarget_preserve s old _
    exact h1.trans h2
  · intro s a
    obtain ⟨_, h1, _, _⟩ := emitToTarget_preserve (emitToTarget s old _) new_ _
    obtain ⟨_, h2, _, _⟩ := emitToTarget_preserve s old _
    exact h1.trans h2
  · intro s a
    obtain ⟨_, _, h1, _⟩ := emitToTarget_preserve (emitToTarget s old _) new_ _
    obtain ⟨_, _, h2, _⟩ := emitToTarget_preserve s old _
    exact h1.trans h2
  · intro s a ho
    obtain ⟨_, _, _, h1⟩ := emitToTarget_preserve (emitToTarget s old _) new_ _
    obtain ⟨_, _, _, h2⟩ := emitToTarget_preserve s old _
    exact h1 (h2 ho)

theorem rotate_shape (st : LoopState) (device_id : Nat) :
    (rotate st device_id).current =
      (st.current + 1) % (st.clients.length + 1) ∧
    (rotate st device_id).keyStates = st.keyStates ∧
    (rotate st device_id).clients.length = st.clients.length ∧
    ((∀ x ∈ st.clients, x.isOpen = true) →
      ∀ x ∈ (rotate st device_id).clients, x.isOpen = true) := by
  obtain ⟨_, h2, h3, h4⟩ :=
    emitTransition_preserve st device_id st.current
      ((st.current + 1) % (st.clients.length + 1))
  exact ⟨rfl, h2, h3, h4⟩

theorem comboKeyStep_shape (st : LoopState) (device_id : Nat)
    (direction : Direction) (key : Key) :
    ((comboKeyStep st device_id direction key).current = st.current ∨
     (comboKeyStep st device_id direction key).current =
       (st.current + 1) % (st.clients.length + 1)) ∧
    (comboKeyStep st device_id direction key).clients.length =
      st.clients.length ∧
    ((∀ s ∈ st.clients, s.isOpen = true) →
      ∀ s ∈ (comboKeyStep st device_id direction key).clients,
        s.isOpen = true) := by
  unfold comboKeyStep
  by_cases hk : hasKey st.keyStates key = true
  · rw [if_pos hk]
    by_cases ha :
        allDown (setKeyState st.keyStates key
          (decide (direction = Direction.Down))) = true
    · rw [if_pos ha]
      exact ⟨Or.inr (rotate_shape _ device_id).1,
             (rotate_shape _ device_id).2.2.1,
             fun ho => (rotate_shape _ device_id).2.2.2 ho⟩
    · rw [if_neg ha]
      exact ⟨Or.inl rfl, rfl, fun h => h⟩
  · rw [if_neg hk]
    exact ⟨Or.inl rfl, rfl, fun h => h⟩

theorem comboPhase_shape (st : LoopState) (e : Event) :
    ((comboPhase st e).current = st.current ∨
     (comboPhase st e).current = (st.current + 1) % (st.clients.length + 1)) ∧
    (comboPhase st e).clients.length = st.clients.length ∧
    ((∀ s ∈ st.clients, s.isOpen = true) →
      ∀ s ∈ (comboPhase st e).clients, s.isOpen = true) := by
  cases e with
  | NewDevice d => exact ⟨Or.inl rfl, rfl, fun h => h⟩
  | RemoveDevice i => exact ⟨Or.inl rfl, rfl, fun h => h⟩
  | Input device_id input syn =>
    cases input with
    | Other t c v => exact ⟨Or.inl rfl, rfl, fun h => h⟩
    | Key direction kind =>
      cases kind with
      | Button b => exact ⟨Or.inl rfl, rfl, fun h => h⟩
      | Key key => exact comboKeyStep_shape st device_id direction key

theorem serverStep_bound (st : LoopState) (e : Event)
    (h : st.current ≤ st.clients.length) :
    (serverStep st e).current ≤ (serverStep st e).clients.length := by
  unfold serverStep
  apply routePhase_bound
  obtain ⟨hcur, hlen, _⟩ := comboPhase_shape st e
  have hm : (st.current + 1) % (st.clients.length + 1) <
      st.clients.length + 1 :=
    @Nat.mod_lt (st.current + 1) (st.clients.length + 1) (by omega)
  rcases hcur with h1 | h1 <;> rw [h1, hlen] <;> omega

theorem setKeyState_map (zs : List Key) (g : Key → Bool) (k : Key)
    (b : Bool) :
    setKeyState (zs.map (fun x => (x, g x))) k b =
      zs.map (fun x => (x, if x = k then b else g x)) := by
  unfold setKeyState
  rw [List.map_map]
  refine List.map_congr_left ?_
  intro x _
  by_cases h : x = k <;> simp [h]

theorem allDown_map (zs : List Key) (g : Key → Bool) :
    allDown (zs.map (fun x => (x, g x))) = zs.all g := by
  unfold allDown
  induction zs with
  | nil => rfl
  | cons z zs ih =>
    simp only [List.map_cons, List.all_cons]
    rw [ih]

theorem hasKey_map_iff (zs : List Key) (g : Key → Bool) (k : Key) :
    hasKey (zs.map (fun x => (x, g x))) k = true ↔ k ∈ zs := by
  unfold hasKey
  rw [List.any_eq_true]
  constructor
  · rintro ⟨p, hp, hpk⟩
    obtain ⟨x, hx, rfl⟩ := List.mem_map.1 hp
    have hxk : x = k := of_decide_eq_true hpk
    exact hxk ▸ hx
  · intro hk
    exact ⟨(k, g k), List.mem_map.2 ⟨k, hk, rfl⟩, by simp⟩

theorem serverStep_key_no_rotate (st : LoopState) (d : Nat) (k : Key)
    (dir : Direction)
    (hk : hasKey st.keyStates k = true)
    (ha : allDown (setKeyState st.keyStates k
      (decide (dir = Direction.Down))) = false)
    (hopen : ∀ s ∈ st.clients, s.isOpen = true)
    (hcur : st.current ≤ st.clients.length) :
    (serverStep st (.Input d (.Key dir (.Key k)) false)).current =
      st.current ∧
    (serverStep st (.Input d (.Key dir (.Key k)) false)).keyStates =
      setKeyState st.keyStates k (decide (dir = Direction.Down)) ∧
    (serverStep st (.Input d (.Key dir (.Key k)) false)).clients.length =
      st.clients.length ∧
    (∀ s ∈ (serverStep st (.Input d (.Key dir (.Key k)) false)).clients,
      s.isOpen = true) := by
  have hcombo : comboPhase st (.Input d (.Key dir (.Key k)) false) =
      { st with keyStates :=
          setKeyState st.keyStates k (decide (dir = Direction.Down)) } := by
    show comboKeyStep st d dir k = _
    unfold comboKeyStep
    rw [if_pos hk, if_neg (by rw [ha]; exact Bool.false_ne_true)]
  unfold serverStep
  rw [hcombo]
  exact routePhase_preserve _ _ hopen hcur

theorem serverStep_key_rotate (st : LoopState) (d : Nat) (k : Key)
    (dir : Direction)
    (hk : hasKey st.keyStates k = true)
    (ha : allDown (setKeyState st.keyStates k
      (decide (dir = Direction.Down))) = true)
    (hopen : ∀ s ∈ st.clients, s.isOpen = true)
    (hcur : st.current ≤ st.clients.length) :
    (serverStep st (.Input d (.Key dir (.Key k)) false)).current =
      (st.current + 1) % (st.clients.length + 1) ∧
    (serverStep st (.Input d (.Key dir (.Key k)) false)).keyStates =
      setKeyState st.keyStates k (decide (dir = Direction.Down)) ∧
    (serverStep st (.Input d (.Key dir (.Key k)) false)).clients.length =
      st.clients.length ∧
    (∀ s ∈ (serverStep st (.Input d (.Key dir (.Key k)) false)).clients,
      s.isOpen = true) := by
  have hcombo : comboPhase st (.Input d (.Key dir (.Key k)) false) =
      rotate
        { st with keyStates :=
            setKeyState st.keyStates k (decide (dir = Direction.Down)) }
        d := by
    show comboKeyStep st d dir k = _
    unfold comboKeyStep
    rw [if_pos hk, if_pos ha]
  unfold serverStep
  rw [hcombo]
  obtain ⟨r1, r2, r3, r4⟩ :=
    rotate_shape
      { st with keyStates :=
          setKeyState st.keyStates k (decide (dir = Direction.Down)) }
      d
  have hopen2 := r4 hopen
  obtain ⟨p1, p2, p3, p4⟩ := routePhase_preserve _ _ hopen2 (by
    rw [r1, r3]
    show (st.current + 1) % (st.clients.length + 1) ≤ st.clients.length
    have := @Nat.mod_lt (st.current + 1) (st.clients.length + 1) (by omega)
    omega)
  exact ⟨p1.trans r1, p2.trans r2, p3.trans r3, p4⟩

theorem serverStep_key_absent (st : LoopState) (d : Nat) (k : Key)
    (dir : Direction)
    (hk : hasKey st.keyStates k = false)
    (hopen : ∀ s ∈ st.clients, s.isOpen = true)
    (hcur : st.current ≤ st.clients.length) :
    (serverStep st (.Input d (.Key dir (.Key k)) false)).current =
      st.current ∧
    (serverStep st (.Input d (.Key dir (.Key k)) false)).keyStates =
      st.keyStates ∧
    (serverStep st (.Input d (.Key dir (.Key k)) false)).clients.length =
      st.clients.length ∧
    (∀ s ∈ (serverStep st (.Input d (.Key dir (.Key k)) false)).clients,
      s.isOpen = true) := by
  have hcombo : comboPhase st (.Input d (.Key dir (.Key k)) false) = st := by
    show comboKeyStep st d dir k = st
    unfold comboKeyStep
    rw [if_neg (by rw [hk]; exact Bool.false_ne_true)]
  unfold serverStep
  rw [hcombo]
  exact routePhase_preserve _ _ hopen hcur

theorem press_phase (zs : List Key) (d : Nat) :
    ∀ (post pre : List Key) (st : LoopState),
    zs = pre ++ post → post ≠ [] → zs.Nodup →
    st.keyStates = zs.map (fun x => (x, decide (x ∈ pre))) →
    (∀ s ∈ st.clients, s.isOpen = true) →
    st.current ≤ st.clients.length →
    ((post.map (pressE d)).foldl serverStep st).current =
      (st.current + 1) % (st.clients.length + 1) ∧
    ((post.map (pressE d)).foldl serverStep st).keyStates =
      zs.map (fun x => (x, true)) ∧
    ((post.map (pressE d)).foldl serverStep st).clients.length =
      st.clients.length ∧
    (∀ s ∈ ((post.map (pressE d)).foldl serverStep st).clients,
      s.isOpen = true) := by
  intro post
  induction post with
  | nil =>
    intro pre st _ hne
    exact absurd rfl hne
  | cons k post ih =>
    intro pre st hzs _ hnd hks hopen hcur
    have hkmem : k ∈ zs := by
      rw [hzs]
      exact List.mem_append_right _ (List.mem_cons_self _ _)
    have hk : hasKey st.keyStates k = true := by
      rw [hks]
      exact (hasKey_map_iff _ _ _).2 hkmem
    have hdd : decide (Direction.Down = Direction.Down) = true := rfl
    have hset : setKeyState st.keyStates k
        (decide (Direction.Down = Direction.Down)) =
        zs.map (fun x => (x, if x = k then true else decide (x ∈ pre))) := by
      rw [hks, hdd, setKeyState_map]
    rw [List.map_cons, List.foldl_cons]
    simp only [pressE]
    by_cases hpost : post = []
    · subst hpost
      have hallpt : ∀ x ∈ zs,
          (if x = k then true else decide (x ∈ pre)) = true := by
        intro x hx
        by_cases hxk : x = k
        · simp [hxk]
        · rw [if_neg hxk]
          rw [hzs] at hx
          rcases List.mem_append.1 hx with h1 | h1
          · simp [h1]
          · rcases List.mem_cons.1 h1 with h2 | h2
            · exact absurd h2 hxk
            · exact absurd h2 (List.not_mem_nil x)
      have ha : allDown (setKeyState st.keyStates k
          (decide (Direction.Down = Direction.Down))) = true := by
        rw [hset, allDown_map]
        refine List.all_eq_true.2 ?_
        intro x hx
        exact hallpt x hx
      obtain ⟨s1, s2, s3, s4⟩ :=
        serverStep_key_rotate st d k .Down hk ha hopen hcur
      rw [List.map_nil, List.foldl_nil]
      refine ⟨s1, ?_, s3, s4⟩
      rw [s2, hset]
      refine List.map_congr_left ?_
      intro x hx
      rw [hallpt x hx]
    · obtain ⟨y, hy⟩ := List.exists_mem_of_ne_nil post hpost
      have hyzs : y ∈ zs := by
        rw [hzs]
        exact List.mem_append_right _ (List.mem_cons_of_mem _ hy)
      have hnd2 : (pre ++ k :: post).Nodup := hzs ▸ hnd
      have hyk : y ≠ k := by
        intro hcontra
        have hkpost : k ∉ post :=
          (List.nodup_cons.1 hnd2.of_append_right).1
        exact hkpost (hcontra ▸ hy)
      have hynotpre : y ∉ pre := by
        intro hp
        exact List.disjoint_of_nodup_append hnd2 hp
          (List.mem_cons_of_mem _ hy)
      have ha : allDown (setKeyState st.keyStates k
          (decide (Direction.Down = Direction.Down))) = false := by
        rw [hset, allDown_map]
        refine List.all_eq_false.2 ⟨y, hyzs, ?_⟩
        rw [if_neg hyk]
        simp [hynotpre]
      obtain ⟨s1, s2, s3, s4⟩ :=
        serverStep_key_no_rotate st d k .Down hk ha hopen hcur
      have hks2 : (serverStep st
          (.Input d (.Key .Down (.Key k)) false)).keyStates =
          zs.map (fun x => (x, decide (x ∈ pre ++ [k]))) := by
        rw [s2, hset]
        refine List.map_congr_left ?_
        intro x _
        by_cases hxk : x = k
        · simp [hxk, List.mem_append]
        · rw [if_neg hxk]
          have hiff : (x ∈ pre) ↔ (x ∈ pre ++ [k]) := by
            rw [List.mem_append, List.mem_singleton]
            exact ⟨Or.inl, fun h => h.elim id (fun h2 => absurd h2 hxk)⟩
          rw [decide_eq_decide.2 hiff]
      have hzs2 : zs = (pre ++ [k]) ++ post := by
        rw [hzs, List.append_assoc]
        rfl
      obtain ⟨i1, i2, i3, i4⟩ :=
        ih (pre ++ [k]) (serverStep st (.Input d (.Key .Down (.Key k)) false))
          hzs2 hpost hnd hks2 s4 (by rw [s1, s3]; exact hcur)
      refine ⟨?_, i2, i3.trans s3, i4⟩
      rw [i1, s1, s3]

theorem release_phase (zs : List Key) (d : Nat) :
    ∀ (rel : List Key) (g : Key → Bool) (st : LoopState),
    st.keyStates = zs.map (fun x => (x, g x)) →
    (∀ s ∈ st.clients, s.isOpen = true) →
    st.current ≤ st.clients.length →
    ((rel.map (releaseE d)).foldl serverStep st).current = st.current ∧
    ((rel.map (releaseE d)).foldl serverStep st).keyStates =
      zs.map (fun x => (x, decide (x ∉ rel) && g x)) ∧
    ((rel.map (releaseE d)).foldl serverStep st).clients.length =
      st.clients.length ∧
    (∀ s ∈ ((rel.map (releaseE d)).foldl serverStep st).clients,
      s.isOpen = true) := by
  intro rel
  induction rel with
  | nil =>
    intro g st hks hopen _
    rw [List.map_nil, List.foldl_nil]
    refine ⟨rfl, ?_, rfl, hopen⟩
    rw [hks]
    refine List.map_congr_left ?_
    intro x _
    simp
  | cons k rel ih =>
    intro g st hks hopen hcur
    rw [List.map_cons, List.foldl_cons]
    simp only [releaseE]
    have hdu : decide (Direction.Up = Direction.Down) = false := rfl
    by_cases hkz : k ∈ zs
    · have hk : hasKey st.keyStates k = true := by
        rw [hks]
        exact (hasKey_map_iff _ _ _).2 hkz
      have hset : setKeyState st.keyStates k
          (decide (Direction.Up = Direction.Down)) =
          zs.map (fun x => (x, if x = k then false else g x)) := by
        rw [hks, hdu, setKeyState_map]
      have ha : allDown (setKeyState st.keyStates k
          (decide (Direction.Up = Direction.Down))) = false := by
        rw [hset, allDown_map]
        refine List.all_eq_false.2 ⟨k, hkz, ?_⟩
        simp
      obtain ⟨s1, s2, s3, s4⟩ :=
        serverStep_key_no_rotate st d k .Up hk ha hopen hcur
      have hks2 : (serverStep st
          (.Input d (.Key .Up (.Key k)) false)).keyStates =
          zs.map (fun x => (x, if x = k then false else g x)) := by
        rw [s2, hset]
      obtain ⟨i1, i2, i3, i4⟩ :=
        ih (fun x => if x = k then false else g x)
          (serverStep st (.Input d (.Key .Up (.Key k)) false)) hks2 s4
          (by rw [s1, s3]; exact hcur)
      refine ⟨i1.trans s1, ?_, i3.trans s3, i4⟩
      rw [i2]
      refine List.map_congr_left ?_
      intro x _
      by_cases hxk : x = k
      · simp [hxk]
      · have hiff : (x ∉ rel) ↔ (x ∉ k :: rel) := by
          rw [List.mem_cons]
          exact ⟨fun h hin => h (hin.elim (fun h2 => absurd h2 hxk) id),
                 fun h hin => h (Or.inr hin)⟩
        rw [if_neg hxk, decide_eq_decide.2 hiff]
    · have hk : hasKey st.keyStates k = false := by
        refine Bool.eq_false_iff.2 ?_
        intro hcontra
        rw [hks] at hcontra
        exact hkz ((hasKey_map_iff _ _ _).1 hcontra)
      obtain ⟨s1, s2, s3, s4⟩ :=
        serverStep_key_absent st d k .Up hk hopen hcur
      obtain ⟨i1, i2, i3, i4⟩ :=
        ih g (serverStep st (.Input d (.Key .Up (.Key k)) false))
          (s2.trans hks) s4 (by rw [s1, s3]; exact hcur)
      refine ⟨i1.trans s1, ?_, i3.trans s3, i4⟩
      rw [i2]
      refine List.map_congr_left ?_
      intro x hx
      have hxk : x ≠ k := fun hcontra => hkz (hcontra ▸ hx)
      have hiff : (x ∉ rel) ↔ (x ∉ k :: rel) := by
        rw [List.mem_cons]
        exact ⟨fun h hin => h (hin.elim (fun h2 => absurd h2 hxk) id),
               fun h hin => h (Or.inr hin)⟩
      rw [decide_eq_decide.2 hiff]

theorem cycle_rotates (zs : List Key) (d : Nat) (st : LoopState)
    (hne : zs ≠ []) (hnd : zs.Nodup)
    (hks : st.keyStates = zs.map (fun x => (x, false)))
    (hopen : ∀ s ∈ st.clients, s.isOpen = true)
    (hcur : st.current ≤ st.clients.length) :
    ((holdReleaseCycle zs d).foldl serverStep st).current =
      (st.current + 1) % (st.clients.length + 1) ∧
    ((holdReleaseCycle zs d).foldl serverStep st).keyStates =
      zs.map (fun x => (x, false)) ∧
    ((holdReleaseCycle zs d).foldl serverStep st).clients.length =
      st.clients.length ∧
    (∀ s ∈ ((holdReleaseCycle zs d).foldl serverStep st).clients,
      s.isOpen = true) := by
  unfold holdReleaseCycle
  rw [List.foldl_append]
  have hks0 : st.keyStates =
      zs.map (fun x => (x, decide (x ∈ ([] : List Key)))) := by
    rw [hks]
    refine List.map_congr_left ?_
    intro x _
    simp
  obtain ⟨p1, p2, p3, p4⟩ :=
    press_phase zs d zs [] st (by simp) hne hnd hks0 hopen hcur
  obtain ⟨r1, r2, r3, r4⟩ :=
    release_phase zs d zs (fun _ => true)
      ((zs.map (pressE d)).foldl serverStep st) p2 p4
      (by
        rw [p1, p3]
        have := @Nat.mod_lt (st.current + 1) (st.clients.length + 1)
          (by omega)
        omega)
  refine ⟨r1.trans p1, ?_, r3.trans p3, r4⟩
  rw [r2]
  refine List.map_congr_left ?_
  intro x hx
  simp [hx]

/-- C5: with the client list unchanged throughout (all channels stay open),
performing N+1 hold-and-release cycles of the full combo, where N is the
number of connected peers, returns the switch controller's current target to
its starting value. Each full simultaneous hold triggers exactly one
rotation by (current + 1) mod (N + 1) and the releases trigger none. -/
theorem c5_target_rotation (zs : List Key) (d : Nat) (st : LoopState)
    (hne : zs ≠ []) (hnd : zs.Nodup)
    (hks : st.keyStates = zs.map (fun k => (k, false)))
    (hopen : ∀ s ∈ st.clients, s.isOpen = true)
    (hcur : st.current ≤ st.clients.length) :
    ((fun s => (holdReleaseCycle zs d).foldl serverStep s)^[st.clients.length + 1]
      st).current = st.current := by
  have aux : ∀ m : Nat,
      (((fun s => (holdReleaseCycle zs d).foldl serverStep s)^[m] st).current =
        (st.current + m) % (st.clients.length + 1)) ∧
      (((fun s => (holdReleaseCycle zs d).foldl serverStep s)^[m] st).keyStates =
        zs.map (fun x => (x, false))) ∧
      (((fun s => (holdReleaseCycle zs d).foldl serverStep s)^[m] st).clients.length =
        st.clients.length) ∧
      (∀ s ∈ ((fun s => (holdReleaseCycle zs d).foldl serverStep s)^[m]
          st).clients, s.isOpen = true) := by
    intro m
    induction m with
    | zero =>
      refine ⟨?_, hks, rfl, hopen⟩
      rw [Function.iterate_zero_apply]
      rw [Nat.add_zero, Nat.mod_eq_of_lt (by omega)]
    | succ m ihm =>
      obtain ⟨a1, a2, a3, a4⟩ := ihm
      rw [Function.iterate_succ_apply']
      obtain ⟨c1, c2, c3, c4⟩ :=
        cycle_rotates zs d _ hne hnd a2 a4
          (by
            rw [a1, a3]
            have := @Nat.mod_lt (st.current + m) (st.clients.length + 1)
              (by omega)
            omega)
      refine ⟨?_, c2, c3.trans a3, c4⟩
      rw [c1, a1, a3, Nat.mod_add_mod]
      congr 1
  obtain ⟨a1, _, _, _⟩ := aux (st.clients.length + 1)
  rw [a1, Nat.add_mod_right, Nat.mod_eq_of_lt (by omega)]

/-- C5 witness: one peer (N = 1), combo LeftAlt+RightAlt, two cycles return
current to 0. -/
theorem c5_target_rotation_witness :
    [Key.LeftAlt, Key.RightAlt] ≠ [] ∧
    ((fun s => (holdReleaseCycle [Key.LeftAlt, Key.RightAlt] 7).foldl
        serverStep s)^[s2Start.clients.length + 1] s2Start).current =
      s2Start.current :=
  ⟨by decide,
   c5_target_rotation [Key.LeftAlt, Key.RightAlt] 7 s2Start (by decide)
     (by decide) (by decide) (by decide) (by decide)⟩

/-- C9: in every reachable state of the server loop, current is a valid
target index — at most the number of clients — so the clients[current-1]
access performed whenever current is nonzero is in bounds. Rotation stays
below clients+1, sender removal resets current to 0, and appending or
closing a sender preserves the bound. -/
theorem c9_current_valid (switchKeys : List Key) (st : LoopState)
    (h : Reachable switchKeys st) :
    st.current ≤ st.clients.length ∧
    (0 < st.current → st.current - 1 < st.clients.length) := by
  have main : st.current ≤ st.clients.length := by
    induction h with
    | init => exact Nat.le_refl 0
    | step st e _ ih => exact serverStep_bound st e ih
    | accept st devices _ ih =>
      simp only [acceptStep, List.length_append, List.length_cons,
        List.length_nil]
      omega
    | close st i _ ih =>
      unfold closeStep
      cases hg : st.clients[i]? with
      | none => simpa [hg] using ih
      | some sink => simpa [hg] using ih
  exact ⟨main, fun hpos => by omega⟩

theorem c9_current_valid_witness :
    (initState [Key.LeftAlt, Key.RightAlt]).current ≤
      (initState [Key.LeftAlt, Key.RightAlt]).clients.length ∧
    (0 < (initState [Key.LeftAlt, Key.RightAlt]).current →
      (initState [Key.LeftAlt, Key.RightAlt]).current - 1 <
        (initState [Key.LeftAlt, Key.RightAlt]).clients.length) :=
  c9_current_valid [Key.LeftAlt, Key.RightAlt] _ Reachable.init

/-- C1: the claim says client-side verification succeeds iff a fingerprint is
configured for the sender and equals the presented certificate's fingerprint,
and fails in every other case. The code is inverted: with a configured and
matching fingerprint, verify_server_cert returns
Err(InvalidCertificateSignature) (while logging "did not match"), and with no
configured fingerprint, or a differing one, it succeeds. This theorem
evaluates the code at the failing inputs, next to the spec predicate. -/
theorem c1_verify_server_cert_inverted :
    verify_server_cert
        { nick := none, address := "peer", port := none,
          fingerprint := some "ab" } "ab"
      = .error .InvalidCertificateSignature ∧
    specVerifyAccepts (some "ab") "ab" = true ∧
    verify_server_cert
        { nick := none, address := "peer", port := none,
          fingerprint := none } "ab" = .ok () ∧
    specVerifyAccepts none "ab" = false ∧
    verify_server_cert
        { nick := none, address := "peer", port := none,
          fingerprint := some "cd" } "ab" = .ok () ∧
    specVerifyAccepts (some "cd") "ab" = false := by
  refine ⟨rfl, rfl, rfl, rfl, rfl, rfl⟩

/-- C2: constructing the writer's virtual device forces bustype to
BUS_VIRTUAL regardless of the descriptor, and EventReader::new refuses any
successfully opened device whose bustype equals that marker with
OpenError::AlreadyOpened, closing the capture/inject loop. -/
theorem c2_bustype_loop_closed (d : Device) (raw : RawEvdev) (f : List Nat)
    (h : raw.bustype = (setup_evdev d).bustype) :
    (setup_evdev d).bustype = BUS_VIRTUAL ∧
    eventReaderNew raw f = .error .AlreadyOpened := by
  refine ⟨rfl, ?_⟩
  have hb : raw.bustype = BUS_VIRTUAL := h
  simp [eventReaderNew, hb]

/-- C2 witness: the refusal at a concrete descriptor and device state. -/
theorem c2_bustype_loop_closed_witness :
    rawVirtual.bustype =
      (setup_evdev { id := 0, name := [97], vendor := 2, product := 1,
                     bustype := 3, version := 3,
                     capabilities := [] }).bustype ∧
    eventReaderNew rawVirtual [101, 118, 101, 110, 116, 48] = .error .AlreadyOpened :=
  ⟨rfl,
   (c2_bustype_loop_closed
      { id := 0, name := [97], vendor := 2, product := 1, bustype := 3,
        version := 3, capabilities := [] }
      rawVirtual [101, 118, 101, 110, 116, 48] rfl).2⟩

/-- C8 counterexample: the claim says EventReader::new grabs the device and
returns an error instead of a reader when the grab fails. The grab call is
commented out in the source: on a device whose grab would fail (EBUSY),
construction still returns the descriptor. -/
theorem c8_counterexample :
    rawGrabFail.grabRet < 0 ∧
    eventReaderNew rawGrabFail [101, 118, 101, 110, 116, 51] =
      .ok { id := 3, name := [107], vendor := 2, product := 1, bustype := 3,
            version := 4, capabilities := [] } := by
  refine ⟨by decide, rfl⟩

/-- C8 amended: EventReader::new performs no grab; its result is independent
of the outcome a grab call would have, and every successfully opened device
whose bustype is not the virtual marker yields a descriptor, never a
grab-related error. -/
theorem c8_no_grab (raw : RawEvdev) (f : List Nat) (g : Int) :
    eventReaderNew { raw with grabRet := g } f = eventReaderNew raw f ∧
    (raw.bustype ≠ BUS_VIRTUAL → ∃ d, eventReaderNew raw f = .ok d) := by
  constructor
  · rfl
  · intro h
    refine ⟨{ id := deriveId f, name := raw.name, vendor := raw.vendor % 65536,
              product := raw.product % 65536, bustype := raw.bustype % 65536,
              version := raw.version % 65536, capabilities := capScan raw },
            ?_⟩
    simp [eventReaderNew, h]

/-- C8 amended witness: concrete evaluation with a failing grab outcome. -/
theorem c8_no_grab_witness :
    rawGrabFail.bustype ≠ BUS_VIRTUAL ∧
    ∃ d, eventReaderNew rawGrabFail [101, 118, 101, 110, 116, 51] = .ok d :=
  ⟨by decide, (c8_no_grab rawGrabFail [101, 118, 101, 110, 116, 51] (-16)).2 (by decide)⟩

/-- C10: an EV_KEY raw event whose value is neither 0 nor 1 (e.g. auto-repeat
value 2) converts to InputEvent::Other with the same type, code and value,
never to InputEvent::Key, and an Other event leaves the switch controller's
combo phase (key states, current target, everything) untouched. -/
theorem c10_repeat_is_other (code : Nat) (value tv_sec tv_usec : Int)
    (h0 : value ≠ 0) (h1 : value ≠ 1) (st : LoopState) (device_id : Nat)
    (syn : Bool) :
    InputEvent.from_raw
        { type_ := EV_KEY, code := code, value := value,
          tv_sec := tv_sec, tv_usec := tv_usec }
      = some (.Other EV_KEY code value) ∧
    comboPhase st (.Input device_id (.Other EV_KEY code value) syn) = st := by
  constructor
  · simp [InputEvent.from_raw, h0, h1]
  · rfl

/-- C10 witness: a key auto-repeat event (value 2). -/
theorem c10_repeat_is_other_witness :
    (2 : Int) ≠ 0 ∧ (2 : Int) ≠ 1 ∧
    InputEvent.from_raw
        { type_ := EV_KEY, code := 30, value := 2, tv_sec := 0, tv_usec := 0 }
      = some (.Other EV_KEY 30 2) ∧
    comboPhase s2Start (.Input 7 (.Other EV_KEY 30 2) false) = s2Start :=
  ⟨by decide, by decide,
   (c10_repeat_is_other 30 2 0 0 (by decide) (by decide) s2Start 7 false).1,
   (c10_repeat_is_other 30 2 0 0 (by decide) (by decide) s2Start 7 false).2⟩

/-- C6: whenever the routing step finds a remote current target whose channel
is closed, the loop removes exactly that sender, resets current to 0, and
writes the event to the local writer manager; the step is total (no error
surfaces) and every other sender is kept in place (List.eraseIdx of exactly
the failed index). -/
theorem c6_peer_failure_fallback (st : LoopState) (e : Event) (sink : Sink)
    (hcur : (comboPhase st e).current ≠ 0)
    (hget : (comboPhase st e).clients[(comboPhase st e).current - 1]?
        = some sink)
    (hclosed : sink.isOpen = false) :
    serverStep st e =
      { clients := (comboPhase st e).clients.eraseIdx
          ((comboPhase st e).current - 1),
        current := 0,
        keyStates := (comboPhase st e).keyStates,
        writerLog := (comboPhase st e).writerLog ++ [e] } := by
  unfold serverStep routePhase
  simp [hcur, sendTo, hget, hclosed]

/-- C6 witness: scenario S3 — current = 1, peer 1's channel closed; the next
event removes peer 1, resets current to 0 and is injected locally. -/
theorem c6_peer_failure_fallback_witness :
    serverStep s3State (.Input 1 (.Other 2 3 4) false) =
      { clients := [],
        current := 0,
        keyStates := [(.LeftAlt, false), (.RightAlt, false)],
        writerLog := [.Input 1 (.Other 2 3 4) false] } :=
  c6_peer_failure_fallback s3State (.Input 1 (.Other 2 3 4) false)
    { isOpen := false, sent := [] } (by decide) (by decide) (by decide)

/-- C3 counterexample: in scenario S2 the claim says peer 1 receives, in
order, exactly Key Down LeftAlt syn=true and Key Down RightAlt syn=true
before the subsequent Key Down A. In the code, after the rotation the loop
falls through to the routing step with the already-updated current target,
so the raw triggering event Key Down RightAlt syn=false is also forwarded to
peer 1, between the synthetic presses and the A press. (This extra third
event makes the peer log differ from the claimed one under any combo-key
iteration order.) -/
theorem c3_counterexample :
    s2Final.clients.map Sink.sent =
      [[Event.Input 7 (.Key .Down (.Key .LeftAlt)) true,
        Event.Input 7 (.Key .Down (.Key .RightAlt)) true,
        Event.Input 7 (.Key .Down (.Key .RightAlt)) false,
        Event.Input 7 (.Key .Down (.Key .A)) false]] ∧
    s2Final.clients.map Sink.sent ≠
      [[Event.Input 7 (.Key .Down (.Key .LeftAlt)) true,
        Event.Input 7 (.Key .Down (.Key .RightAlt)) true,
        Event.Input 7 (.Key .Down (.Key .A)) false]] := by
  refine ⟨by decide, by decide⟩

/-- C3 amended: in scenario S2 (combo keys iterated in the key-state map
order, LeftAlt then RightAlt in the model), the rotation emits Key Up LeftAlt
syn=true and Key Up RightAlt syn=true to the local writer manager (the old
target) and Key Down LeftAlt syn=true and Key Down RightAlt syn=true to peer
1 (the new target); peer 1 additionally receives the triggering raw event
Key Down RightAlt syn=false, and the subsequent Key Down A goes only to peer
1 (current stays 1, the local writer manager receives nothing after the
synthetic releases; the first raw LeftAlt press had gone to the local writer
while current was still 0). -/
theorem c3_amended_transition_trace :
    s2Final.current = 1 ∧
    s2Final.writerLog =
      [pressE 7 .LeftAlt,
       Event.Input 7 (.Key .Up (.Key .LeftAlt)) true,
       Event.Input 7 (.Key .Up (.Key .RightAlt)) true] ∧
    s2Final.clients =
      [{ isOpen := true,
         sent := [Event.Input 7 (.Key .Down (.Key .LeftAlt)) true,
                  Event.Input 7 (.Key .Down (.Key .RightAlt)) true,
                  Event.Input 7 (.Key .Down (.Key .RightAlt)) false,
                  Event.Input 7 (.Key .Down (.Key .A)) false] }] := by
  refine ⟨by decide, by decide, by decide⟩

theorem typeCode_builder (raw : RawEvdev) (t c : Nat)
    (ht : t < EV_MAX) (hc : c < 65536) :
    Capability.typeCode
      (if t = EV_ABS then Capability.ABS (c % 65536) (raw.absInfo c)
       else if t = EV_REP then Capability.REP (c % 65536) (raw.eventValue t c)
       else Capability.Other (t % 65536) (c % 65536)) = (t, c) := by
  by_cases hA : t = EV_ABS
  · rw [if_pos hA]
    show (EV_ABS, c % 65536) = (t, c)
    rw [hA, Nat.mod_eq_of_lt hc]
  · rw [if_neg hA]
    by_cases hR : t = EV_REP
    · rw [if_pos hR]
      show (EV_REP, c % 65536) = (t, c)
      rw [hR, Nat.mod_eq_of_lt hc]
    · rw [if_neg hR]
      show (t % 65536, c % 65536) = (t, c)
      rw [Nat.mod_eq_of_lt hc, Nat.mod_eq_of_lt (show t < 65536 by
        have : EV_MAX = 31 := rfl
        omega)]

theorem capScan_typeCodes (raw : RawEvdev)
    (hmax : ∀ t, raw.codeMax t ≤ 65536) :
    (capScan raw).map Capability.typeCode = capPairs raw := by
  unfold capScan capPairs
  have key : ∀ l : List Nat, (∀ t ∈ l, t < EV_MAX) →
      ((l.flatMap (fun t =>
        ((List.range (raw.codeMax t)).filter (fun c => raw.hasCode t c)).map
          (fun c =>
            if t = EV_ABS then Capability.ABS (c % 65536) (raw.absInfo c)
            else if t = EV_REP then
              Capability.REP (c % 65536) (raw.eventValue t c)
            else Capability.Other (t % 65536) (c % 65536)))).map
        Capability.typeCode) =
      l.flatMap (fun t =>
        ((List.range (raw.codeMax t)).filter (fun c => raw.hasCode t c)).map
          (fun c => (t, c))) := by
    intro l hl
    induction l with
    | nil => rfl
    | cons t l ih =>
      rw [List.flatMap_cons, List.flatMap_cons, List.map_append,
        ih (fun u hu => hl u (List.mem_cons_of_mem t hu)), List.map_map]
      have ht : t < EV_MAX := hl t (List.mem_cons_self t l)
      have inner :
          ((List.range (raw.codeMax t)).filter
            (fun c => raw.hasCode t c)).map
            (Capability.typeCode ∘ (fun c =>
              if t = EV_ABS then Capability.ABS (c % 65536) (raw.absInfo c)
              else if t = EV_REP then
                Capability.REP (c % 65536) (raw.eventValue t c)
              else Capability.Other (t % 65536) (c % 65536))) =
          ((List.range (raw.codeMax t)).filter
            (fun c => raw.hasCode t c)).map (fun c => (t, c)) := by
        refine List.map_congr_left ?_
        intro c hcmem
        have hcm : c < raw.codeMax t :=
          List.mem_range.1 (List.mem_filter.1 hcmem).1
        have hc65536 : c < 65536 := Nat.lt_of_lt_of_le hcm (hmax t)
        exact typeCode_builder raw t c ht hc65536
      rw [inner]
  refine key _ ?_
  intro t ht
  exact List.mem_range.1 (List.mem_filter.1 ht).1

theorem capPairs_mem (raw : RawEvdev) (t c : Nat) :
    (t, c) ∈ capPairs raw ↔
      (t < EV_MAX ∧ t ≠ EV_SW ∧ raw.hasType t = true ∧
       c < raw.codeMax t ∧ raw.hasCode t c = true) := by
  unfold capPairs
  rw [List.mem_flatMap]
  constructor
  · rintro ⟨u, hu, hmem⟩
    obtain ⟨hur, hup⟩ := List.mem_filter.1 hu
    obtain ⟨c2, hc2, hpair⟩ := List.mem_map.1 hmem
    obtain ⟨hc2r, hc2p⟩ := List.mem_filter.1 hc2
    obtain ⟨h1, h2⟩ := Prod.mk.injEq u c2 t c ▸ hpair
    subst h1
    subst h2
    obtain ⟨hne, hty⟩ := Bool.and_eq_true_iff.1 hup
    exact ⟨List.mem_range.1 hur, of_decide_eq_true hne, hty,
      List.mem_range.1 hc2r, hc2p⟩
  · rintro ⟨h1, h2, h3, h4, h5⟩
    refine ⟨t, List.mem_filter.2 ⟨List.mem_range.2 h1, ?_⟩,
      List.mem_map.2 ⟨c, List.mem_filter.2 ⟨List.mem_range.2 h4, h5⟩, rfl⟩⟩
    rw [Bool.and_eq_true_iff]
    exact ⟨decide_eq_true h2, h3⟩

theorem pairwise_flatMap_lex (ts : List Nat) (f : Nat → List (Nat × Nat))
    (hts : ts.Pairwise (· < ·))
    (hfst : ∀ t p, p ∈ f t → p.1 = t)
    (hinner : ∀ t, (f t).Pairwise tcLt) :
    (ts.flatMap f).Pairwise tcLt := by
  induction ts with
  | nil => exact List.Pairwise.nil
  | cons t ts ih =>
    rw [List.flatMap_cons]
    obtain ⟨hlt, hts2⟩ := List.pairwise_cons.1 hts
    refine List.pairwise_append.2 ⟨hinner t, ih hts2, ?_⟩
    intro p hp q hq
    obtain ⟨u, hu, hq2⟩ := List.mem_flatMap.1 hq
    exact Or.inl (by rw [hfst t p hp, hfst u q hq2]; exact hlt u hu)

theorem capPairs_pairwise (raw : RawEvdev) :
    List.Pairwise tcLt (capPairs raw) := by
  unfold capPairs
  refine pairwise_flatMap_lex _ _
    (List.Pairwise.filter _ (List.pairwise_lt_range EV_MAX)) ?_ ?_
  · intro t p hp
    obtain ⟨c, _, hpair⟩ := List.mem_map.1 hp
    rw [← hpair]
  · intro t
    refine List.Pairwise.map _ ?_
      (List.Pairwise.filter _ (List.pairwise_lt_range (raw.codeMax t)))
    intro a b hab
    exact Or.inr ⟨rfl, hab⟩

/-- C7 counterexample: the claim says the descriptor's capability list
contains one record for every (type, code) pair the device supports. The
scan explicitly skips EV_SW ("ignore EV_SW for now"), so a device supporting
(EV_SW, 0) yields a descriptor with no record for it. -/
theorem c7_counterexample :
    rawSw.hasType EV_SW = true ∧
    rawSw.hasCode EV_SW 0 = true ∧
    0 < rawSw.codeMax EV_SW ∧
    eventReaderNew rawSw [101, 118, 101, 110, 116, 49] =
      .ok { id := 1, name := [115], vendor := 2, product := 1, bustype := 3,
            version := 4, capabilities := [] } ∧
    ¬ (EV_SW, 0) ∈
      (({ id := 1, name := [115], vendor := 2, product := 1, bustype := 3,
          version := 4,
          capabilities := [] } : Device).capabilities.map
        Capability.typeCode) := by
  refine ⟨by decide, by decide, by decide, rfl, by decide⟩

/-- C7 amended: for every device successfully opened by EventReader::new
(given the libevdev invariant that every per-type code maximum fits a u16),
the descriptor's capability list contains exactly one record for every
(type, code) pair with type below EV_MAX, type not EV_SW, the type reported
supported, code below the type's maximum, and the code reported supported —
and the records appear in strictly increasing lexicographic (type, code)
order. -/
theorem c7_capability_scan (raw : RawEvdev) (f : List Nat) (dev : Device)
    (hmax : ∀ t, raw.codeMax t ≤ 65536)
    (hok : eventReaderNew raw f = .ok dev) :
    (∀ t c, (t, c) ∈ dev.capabilities.map Capability.typeCode ↔
      (t < EV_MAX ∧ t ≠ EV_SW ∧ raw.hasType t = true ∧
       c < raw.codeMax t ∧ raw.hasCode t c = true)) ∧
    List.Pairwise tcLt (dev.capabilities.map Capability.typeCode) := by
  have hcaps : dev.capabilities = capScan raw := by
    unfold eventReaderNew at hok
    by_cases hb : raw.bustype = BUS_VIRTUAL
    · rw [if_pos hb] at hok
      exact absurd hok (by simp)
    · rw [if_neg hb] at hok
      rw [← Except.ok.inj hok]
  rw [hcaps, capScan_typeCodes raw hmax]
  exact ⟨fun t c => capPairs_mem raw t c, capPairs_pairwise raw⟩

/-- C7 amended witness: a concrete device supporting (EV_KEY, 1) and
(EV_ABS, 0). -/
theorem c7_capability_scan_witness :
    (∀ t c,
      (t, c) ∈
        (({ id := 1, name := [109], vendor := 2, product := 1, bustype := 3,
            version := 4,
            capabilities :=
              [Capability.Other 1 1,
               Capability.ABS 0
                 { value := 1, minimum := 2, maximum := 3, fuzz := 4,
                   flat := 5, resolution := 6 }] } : Device).capabilities.map
          Capability.typeCode) ↔
      (t < EV_MAX ∧ t ≠ EV_SW ∧ rawKeyAbs.hasType t = true ∧
       c < rawKeyAbs.codeMax t ∧ rawKeyAbs.hasCode t c = true)) ∧
    List.Pairwise tcLt
      (({ id := 1, name := [109], vendor := 2, product := 1, bustype := 3,
          version := 4,
          capabilities :=
            [Capability.Other 1 1,
             Capability.ABS 0
               { value := 1, minimum := 2, maximum := 3, fuzz := 4,
                 flat := 5, resolution := 6 }] } : Device).capabilities.map
        Capability.typeCode) :=
  c7_capability_scan rawKeyAbs [101, 118, 101, 110, 116, 49] _
    (by intro t; show (2 : Nat) ≤ 65536; decide) rfl

theorem readExact_append (xs rest : List Nat) :
    readExact xs.length (xs ++ rest) = some (xs, rest) := by
  unfold readExact
  rw [if_pos (by simp), List.take_left, List.drop_left]

theorem dUInt_exact (xs rest : List Nat) :
    dUInt xs.length (xs ++ rest) = some (leVal xs, rest) := by
  unfold dUInt
  rw [readExact_append]
  rfl

theorem leVal_u16 (n : Nat) (h : n < 65536) : leVal (u16le n) = n := by
  show n % 256 + 256 * (n / 256 % 256 + 256 * 0) = n
  omega

theorem leVal_u32 (n : Nat) (h : n < 4294967296) : leVal (u32le n) = n := by
  show n % 256 + 256 * (n / 256 % 256 + 256 * (n / 65536 % 256 +
    256 * (n / 16777216 % 256 + 256 * 0))) = n
  omega

theorem leVal_u64 (n : Nat) (h : n < 18446744073709551616) :
    leVal (u64le n) = n := by
  show n % 256 + 256 * (n / 256 % 256 + 256 * (n / 65536 % 256 +
    256 * (n / 16777216 % 256 + 256 * (n / 4294967296 % 256 +
    256 * (n / 1099511627776 % 256 + 256 * (n / 281474976710656 % 256 +
    256 * (n / 72057594037927936 % 256 + 256 * 0))))))) = n
  omega

theorem dUInt2_rt (n : Nat) (rest : List Nat) (h : n < 65536) :
    dUInt 2 (u16le n ++ rest) = some (n, rest) := by
  have h1 : dUInt 2 (u16le n ++ rest) = some (leVal (u16le n), rest) :=
    dUInt_exact (u16le n) rest
  rw [h1, leVal_u16 n h]

theorem dUInt4_rt (n : Nat) (rest : List Nat) (h : n < 4294967296) :
    dUInt 4 (u32le n ++ rest) = some (n, rest) := by
  have h1 : dUInt 4 (u32le n ++ rest) = some (leVal (u32le n), rest) :=
    dUInt_exact (u32le n) rest
  rw [h1, leVal_u32 n h]

theorem dUInt8_rt (n : Nat) (rest : List Nat)
    (h : n < 18446744073709551616) :
    dUInt 8 (u64le n ++ rest) = some (n, rest) := by
  have h1 : dUInt 8 (u64le n ++ rest) = some (leVal (u64le n), rest) :=
    dUInt_exact (u64le n) rest
  rw [h1, leVal_u64 n h]

theorem dI32_rt (v : Int) (rest : List Nat) (h : i32wf v = true) :
    dI32 (i32le v ++ rest) = some (v, rest) := by
  have hb : (-2147483648 : Int) ≤ v ∧ v < 2147483648 := by
    unfold i32wf at h
    constructor
    · exact of_decide_eq_true (Bool.and_eq_true_iff.1 h).1
    · exact of_decide_eq_true (Bool.and_eq_true_iff.1 h).2
  have hlt : (v % 4294967296).toNat < 4294967296 := by omega
  have h1 : dUInt 4 (u32le (v % 4294967296).toNat ++ rest) =
      some ((v % 4294967296).toNat, rest) := dUInt4_rt _ rest hlt
  unfold dI32 i32le
  rw [h1, Option.map_some']
  have : (if (v % 4294967296).toNat < 2147483648 then
      (((v % 4294967296).toNat : Nat) : Int)
      else (((v % 4294967296).toNat : Nat) : Int) - 4294967296) = v := by
    by_cases hcase : (v % 4294967296).toNat < 2147483648
    · rw [if_pos hcase]
      omega
    · rw [if_neg hcase]
      omega
  rw [this]

theorem dBool_rt (b : Bool) (rest : List Nat) :
    dBool (boolByte b ++ rest) = some (b, rest) := by
  cases b <;> rfl

theorem key_roundIdx (k : Key) : Key.ofIdx k.toIdx = some k := by
  cases k <;> rfl

theorem button_roundIdx (b : Button) : Button.ofIdx b.toIdx = some b := by
  cases b <;> rfl

theorem key_idx_lt (k : Key) : k.toIdx < 4294967296 := by
  cases k <;> decide

theorem button_idx_lt (b : Button) : b.toIdx < 4294967296 := by
  cases b <;> decide

theorem dDirection_rt (dir : Direction) (rest : List Nat) :
    dDirection (serDirection dir ++ rest) = some (dir, rest) := by
  cases dir <;>
    simp [dDirection, serDirection, dTag, dUInt4_rt, Option.some_bind]

theorem dKeyKind_rt (kind : KeyKind) (rest : List Nat) :
    dKeyKind (serKeyKind kind ++ rest) = some (kind, rest) := by
  cases kind with
  | Key k =>
    have h1 : dUInt 4 (u32le 0 ++ (u32le k.toIdx ++ rest)) =
        some (0, u32le k.toIdx ++ rest) := dUInt4_rt 0 _ (by decide)
    have h2 : dUInt 4 (u32le k.toIdx ++ rest) = some (k.toIdx, rest) :=
      dUInt4_rt k.toIdx rest (key_idx_lt k)
    simp [dKeyKind, serKeyKind, dTag, List.append_assoc, h1, h2,
      key_roundIdx]
  | Button b =>
    have h1 : dUInt 4 (u32le 1 ++ (u32le b.toIdx ++ rest)) =
        some (1, u32le b.toIdx ++ rest) := dUInt4_rt 1 _ (by decide)
    have h2 : dUInt 4 (u32le b.toIdx ++ rest) = some (b.toIdx, rest) :=
      dUInt4_rt b.toIdx rest (button_idx_lt b)
    simp [dKeyKind, serKeyKind, dTag, List.append_assoc, h1, h2,
      button_roundIdx]

theorem dInput_rt (i : InputEvent) (rest : List Nat) (hwf : i.wf = true) :
    dInput (serInput i ++ rest) = some (i, rest) := by
  cases i with
  | Key dir kind =>
    have h0 : (0 : Nat) < 4294967296 := by decide
    simp [dInput, serInput, dTag, List.append_assoc, dUInt4_rt, h0,
      dDirection_rt, dKeyKind_rt]
  | Other t c v =>
    simp only [InputEvent.wf, Bool.and_eq_true_iff, decide_eq_true_eq]
      at hwf
    obtain ⟨⟨⟨ht, hc⟩, hv1⟩, hv2⟩ := hwf
    have hv : i32wf v = true := by
      unfold i32wf
      rw [Bool.and_eq_true_iff]
      exact ⟨decide_eq_true hv1, decide_eq_true hv2⟩
    have h1 : (1 : Nat) < 4294967296 := by decide
    simp [dInput, serInput, dTag, List.append_assoc, dUInt4_rt, h1,
      dUInt2_rt, ht, hc, dI32_rt, hv]

theorem dAbsInfo_rt (info : AbsInfo) (rest : List Nat)
    (hwf : info.wf = true) :
    dAbsInfo (serAbsInfo info ++ rest) = some (info, rest) := by
  simp only [AbsInfo.wf, Bool.and_eq_true_iff] at hwf
  obtain ⟨⟨⟨⟨⟨h1, h2⟩, h3⟩, h4⟩, h5⟩, h6⟩ := hwf
  simp [dAbsInfo, serAbsInfo, List.append_assoc, dI32_rt, h1, h2, h3, h4,
    h5, h6]

theorem dCapability_rt (cap : Capability) (rest : List Nat)
    (hwf : cap.wf = true) :
    dCapability (serCapability cap ++ rest) = some (cap, rest) := by
  cases cap with
  | Other t c =>
    simp only [Capability.wf, Bool.and_eq_true_iff, decide_eq_true_eq]
      at hwf
    obtain ⟨ht, hc⟩ := hwf
    have h0 : (0 : Nat) < 4294967296 := by decide
    simp [dCapability, serCapability, dTag, List.append_assoc, dUInt4_rt,
      h0, dUInt2_rt, ht, hc]
  | ABS c info =>
    simp only [Capability.wf, Bool.and_eq_true_iff, decide_eq_true_eq]
      at hwf
    obtain ⟨hc, hinfo⟩ := hwf
    have h1 : (1 : Nat) < 4294967296 := by decide
    simp [dCapability, serCapability, dTag, List.append_assoc, dUInt4_rt,
      h1, dUInt2_rt, hc, dAbsInfo_rt, hinfo]
  | REP c v =>
    simp only [Capability.wf, Bool.and_eq_true_iff, decide_eq_true_eq]
      at hwf
    obtain ⟨hc, hv⟩ := hwf
    have h2 : (2 : Nat) < 4294967296 := by decide
    simp [dCapability, serCapability, dTag, List.append_assoc, dUInt4_rt,
      h2, dUInt2_rt, hc, dI32_rt, hv]

theorem dList_rt {α : Type} (dec : List Nat → Option (α × List Nat))
    (ser : α → List Nat) (xs : List α) (rest : List Nat)
    (hdec : ∀ x ∈ xs, ∀ r, dec (ser x ++ r) = some (x, r)) :
    dList dec xs.length ((xs.map ser).flatten ++ rest) = some (xs, rest) := by
  induction xs with
  | nil => rfl
  | cons x xs ih =>
    rw [List.map_cons, List.flatten_cons, List.length_cons,
      List.append_assoc]
    show (dec (ser x ++ ((xs.map ser).flatten ++ rest))).bind _ = _
    rw [hdec x (List.mem_cons_self x xs) _, Option.some_bind,
      ih (fun y hy r => hdec y (List.mem_cons_of_mem x hy) r),
      Option.map_some']

theorem dDevice_rt (dev : Device) (rest : List Nat) (hwf : dev.wf = true) :
    dDevice (serDevice dev ++ rest) = some (dev, rest) := by
  simp only [Device.wf, Bool.and_eq_true_iff, decide_eq_true_eq] at hwf
  obtain ⟨⟨⟨⟨⟨⟨⟨⟨hid, hv⟩, hp⟩, hb⟩, hver⟩, hname⟩, hnlen⟩, hcw⟩, hclen⟩ :=
    hwf
  have hcaps : ∀ r, dList dCapability dev.capabilities.length
      ((dev.capabilities.map serCapability).flatten ++ r) =
      some (dev.capabilities, r) := by
    intro r
    refine dList_rt dCapability serCapability dev.capabilities r ?_
    intro x hx r2
    refine dCapability_rt x r2 ?_
    have := List.all_eq_true.1 hcw x hx
    exact this
  have hnm : ∀ r, readExact dev.name.length (dev.name ++ r) =
      some (dev.name, r) := fun r => readExact_append dev.name r
  simp [dDevice, serDevice, List.append_assoc, dUInt2_rt, hid, hv, hp, hb,
    hver, dUInt8_rt, hnlen, hclen, hnm, hcaps]

theorem dEvent_rt (e : Event) (rest : List Nat) (hwf : e.wf = true) :
    dEvent (serEvent e ++ rest) = some (e, rest) := by
  cases e with
  | Input device_id input syn =>
    simp only [Event.wf, Bool.and_eq_true_iff, decide_eq_true_eq] at hwf
    obtain ⟨hd, hi⟩ := hwf
    have h0 : (0 : Nat) < 4294967296 := by decide
    simp [dEvent, serEvent, dTag, List.append_assoc, dUInt4_rt, h0,
      dUInt2_rt, hd, dInput_rt, hi, dBool_rt]
  | NewDevice dev =>
    have hdev : dev.wf = true := hwf
    have h1 : (1 : Nat) < 4294967296 := by decide
    simp [dEvent, serEvent, dTag, List.append_assoc, dUInt4_rt, h1,
      dDevice_rt, hdev]
  | RemoveDevice device_id =>
    have hd : device_id < 65536 := by
      simpa only [Event.wf, decide_eq_true_eq] using hwf
    have h2 : (2 : Nat) < 4294967296 := by decide
    simp [dEvent, serEvent, dTag, List.append_assoc, dUInt4_rt, h2,
      dUInt2_rt, hd]

theorem dMessage_rt (m : Message) (rest : List Nat) (hwf : m.wf = true) :
    dMessage (serMessage m ++ rest) = some (m, rest) := by
  cases m with
  | Event e =>
    have he : e.wf = true := by
      simp only [Message.wf, Bool.and_eq_true_iff] at hwf
      exact hwf.1
    have h0 : (0 : Nat) < 4294967296 := by decide
    simp [dMessage, serMessage, dTag, List.append_assoc, dUInt4_rt, h0,
      dEvent_rt, he]
  | KeepAlive =>
    have h1 : (1 : Nat) < 4294967296 := by decide
    simp [dMessage, serMessage, dTag, dUInt4_rt, h1]

/-- C4: reading back the bytes produced by write_message yields the original
message, and read_message on every strict non-empty prefix of those bytes
fails with the truncated-frame error (read_exact hits end of input either in
the length prefix or inside the payload) instead of returning a message. -/
theorem c4_framing_roundtrip (m : Message) (bytes : List Nat)
    (hwf : m.wf = true) (hw : write_message m = .ok bytes) :
    read_message bytes = .ok m ∧
    (∀ pre : List Nat, pre ≠ [] → pre ≠ bytes → (∃ t, pre ++ t = bytes) →
      read_message pre = .error .truncated) := by
  have hlen : (serMessage m).length < 4294967296 := by
    cases m with
    | Event e =>
      simp only [Message.wf, Bool.and_eq_true_iff, decide_eq_true_eq] at hwf
      exact hwf.2
    | KeepAlive => show (4 : Nat) < 4294967296; decide
  have hbytes : bytes = u32le (serMessage m).length ++ serMessage m := by
    unfold write_message at hw
    rw [if_pos hlen] at hw
    exact (Except.ok.inj hw).symm
  constructor
  · rw [hbytes]
    have h1 : readExact 4 (u32le (serMessage m).length ++ serMessage m) =
        some (u32le (serMessage m).length, serMessage m) :=
      readExact_append (u32le (serMessage m).length) (serMessage m)
    have hl : leVal (u32le (serMessage m).length) = (serMessage m).length :=
      leVal_u32 _ hlen
    have h2 : readExact (serMessage m).length (serMessage m) =
        some (serMessage m, []) := by
      have h3 := readExact_append (serMessage m) []
      rwa [List.append_nil] at h3
    have h4 : dMessage (serMessage m) = some (m, []) := by
      have h5 := dMessage_rt m [] hwf
      rwa [List.append_nil] at h5
    simp only [read_message, h1, hl, h2, h4]
  · rintro pre hne hneq ⟨t, ht⟩
    have htne : t ≠ [] := by
      intro hcontra
      rw [hcontra, List.append_nil] at ht
      exact hneq ht
    have hplen : pre.length < bytes.length := by
      rw [← ht, List.length_append]
      cases t with
      | nil => exact absurd rfl htne
      | cons a t => simp
    have hblen : bytes.length = 4 + (serMessage m).length := by
      rw [hbytes, List.length_append]
      rfl
    by_cases h4 : pre.length < 4
    · have hnone : readExact 4 pre = none := by
        unfold readExact
        rw [if_neg (by omega)]
      simp only [read_message, hnone]
    · have hpre : pre = u32le (serMessage m).length ++
          (serMessage m).take (pre.length - 4) := by
        have hp1 : pre = bytes.take pre.length := by
          rw [← ht, List.take_left]
        rw [hbytes, List.take_append_eq_append_take,
          List.take_of_length_le (show (u32le
            (serMessage m).length).length ≤ pre.length by
              show 4 ≤ pre.length
              omega)] at hp1
        exact hp1
      have hrest2 : ((serMessage m).take (pre.length - 4)).length =
          pre.length - 4 := by
        rw [List.length_take]
        omega
      have h1 : readExact 4 (u32le (serMessage m).length ++
          (serMessage m).take (pre.length - 4)) =
          some (u32le (serMessage m).length,
            (serMessage m).take (pre.length - 4)) :=
        readExact_append (u32le (serMessage m).length) _
      have hl : leVal (u32le (serMessage m).length) =
          (serMessage m).length := leVal_u32 _ hlen
      have hnone : readExact (serMessage m).length
          ((serMessage m).take (pre.length - 4)) = none := by
        unfold readExact
        rw [if_neg (by rw [hrest2]; omega)]
      rw [hpre]
      simp only [read_message, h1, hl, hnone]

/-- C4 witness: the KeepAlive message framed as four length bytes and a
four-byte payload round-trips. -/
theorem c4_framing_roundtrip_witness :
    Message.KeepAlive.wf = true ∧
    write_message Message.KeepAlive = .ok [4, 0, 0, 0, 1, 0, 0, 0] ∧
    read_message [4, 0, 0, 0, 1, 0, 0, 0] = .ok Message.KeepAlive ∧
    read_message [4, 0, 0, 0, 1, 0] = .error .truncated :=
  ⟨rfl, rfl,
   (c4_framing_roundtrip Message.KeepAlive [4, 0, 0, 0, 1, 0, 0, 0] rfl
     rfl).1,
   (c4_framing_roundtrip Message.KeepAlive [4, 0, 0, 0, 1, 0, 0, 0] rfl
     rfl).2 [4, 0, 0, 0, 1, 0] (by decide) (by decide)
     ⟨[0, 0], rfl⟩⟩

end Evkvm
